import Mathlib

/-!
# Verification of the query-classification and hybrid-retrieval core

This file gives a shallow embedding, in Lean 4, of the query classification
and retrieval-fusion subsystem of the Financial-Market-Research-Agent
repository (`src/analyst.py`, `src/hybrid_search.py`, `src/research_agent.py`,
`src/financial_memory.py`, `src/market_tools.py`), together with theorems
settling the frozen claims about it.

Modelling conventions:
* Python strings are modelled as `List Char`; `str.lower` as an ASCII
  char-wise lowering, `str.strip` as trimming ASCII whitespace.
* Python floats are modelled as exact rationals (`ℚ`).
* Python `re.search` is modelled by a small regular-expression matcher
  covering exactly the constructs used by the source patterns; the token
  scan `re.findall` of the symbol resolver is modelled by a dedicated
  scanner mirroring the regex semantics.
* Python dicts used as ordered key→record tables are modelled as
  association lists preserving insertion order; `sorted`/`list.sort`
  (which are stable in Python) are modelled by a stable insertion sort.
* External collaborators (ChromaDB, the BM25 library, DuckDuckGo, the
  Gemini API, the Qdrant memory store) enter as explicit parameters: the
  functions under verification receive their outputs as inputs.
-/

namespace MarketMind

set_option maxRecDepth 100000

/-! ## Character and string primitives -/

/-- ASCII whitespace, as recognised by Python `str.strip`. -/
def isSpaceC (c : Char) : Bool :=
  c.toNat == 32 || c.toNat == 9 || c.toNat == 10 || c.toNat == 13 ||
  c.toNat == 11 || c.toNat == 12

/-- ASCII uppercase letter. -/
def isUpperAZ (c : Char) : Bool := 65 ≤ c.toNat && c.toNat ≤ 90

/-- ASCII lowercase letter. -/
def isLowerAZ (c : Char) : Bool := 97 ≤ c.toNat && c.toNat ≤ 122

/-- ASCII digit. -/
def isDigit09 (c : Char) : Bool := 48 ≤ c.toNat && c.toNat ≤ 57

/-- ASCII char-wise lowering (model of Python `str.lower` on ASCII text). -/
def lowerC (c : Char) : Char :=
  if isUpperAZ c then Char.ofNat (c.toNat + 32) else c

/-- Lowercase a string. -/
def lowers (l : List Char) : List Char := l.map lowerC

/-- Trim whitespace from the left (half of Python `str.strip`). -/
def trimLeft (l : List Char) : List Char := l.dropWhile isSpaceC

/-- Model of Python `str.strip`. -/
def trims (l : List Char) : List Char :=
  ((trimLeft l).reverse.dropWhile isSpaceC).reverse

/-- Boolean substring test, model of Python `needle in haystack`. -/
def substrB (hay pat : List Char) : Bool := decide (pat <:+: hay)

/-- Model of Python `str.replace(pat, rep)` (all non-overlapping
occurrences, scanning left to right). -/
def replaceAll (l pat rep : List Char) : List Char :=
  if pat = [] then l
  else if h : pat.isPrefixOf l then
    rep ++ replaceAll (l.drop pat.length) pat rep
  else
    match l with
    | [] => []
    | c :: rest => c :: replaceAll rest pat rep
termination_by l.length
decreasing_by
  · simp only [List.length_drop]
    have hp : pat <+: l := List.isPrefixOf_iff_prefix.mp h
    have h1 : 0 < pat.length := by
      cases pat with
      | nil => simp_all
      | cons a as => simp
    have h2 : pat.length ≤ l.length := hp.length_le
    omega
  · simp

/-- Convenience: characters of a string literal. -/
def cs (s : String) : List Char := s.toList

/-! ### Workhorse facts about characters -/

theorem charToNatInj {a b : Char} (h : a.toNat = b.toNat) : a = b :=
  Char.eq_of_val_eq (by
    apply UInt32.eq_of_toBitVec_eq
    apply BitVec.eq_of_toNat_eq
    exact h)

theorem toNatOfNatValid (n : Nat) (h : n.isValidChar) : (Char.ofNat n).toNat = n := by
  simp only [Char.ofNat, h, dif_pos, Char.ofNatAux, Char.toNat, UInt32.toNat]
  simp

theorem lowerC_toNat_of_upper {c : Char} (h : isUpperAZ c = true) :
    (lowerC c).toNat = c.toNat + 32 := by
  unfold isUpperAZ at h
  simp only [Bool.and_eq_true, decide_eq_true_eq, Nat.beq_eq] at h
  unfold lowerC
  rw [if_pos]
  · apply toNatOfNatValid
    left
    omega
  · unfold isUpperAZ
    simp only [Bool.and_eq_true, decide_eq_true_eq, Nat.beq_eq]
    omega

theorem lowerC_of_not_upper {c : Char} (h : isUpperAZ c = false) : lowerC c = c := by
  unfold lowerC
  simp [h]

theorem lowerC_space (c : Char) : isSpaceC (lowerC c) = isSpaceC c := by
  by_cases h : isUpperAZ c = true
  · have h1 := lowerC_toNat_of_upper h
    unfold isUpperAZ at h
    simp only [Bool.and_eq_true, decide_eq_true_eq] at h
    have hA : isSpaceC (lowerC c) = false := by
      unfold isSpaceC
      rw [h1]
      simp only [Bool.or_eq_false_iff, beq_eq_false_iff_ne, ne_eq]
      omega
    have hB : isSpaceC c = false := by
      unfold isSpaceC
      simp only [Bool.or_eq_false_iff, beq_eq_false_iff_ne, ne_eq]
      omega
    rw [hA, hB]
  · have h' : isUpperAZ c = false := by
      cases hU : isUpperAZ c
      · rfl
      · exact absurd hU h
    rw [lowerC_of_not_upper h']

theorem countP_nonspace_lowers (l : List Char) :
    (lowers l).countP (fun c => !isSpaceC c) = l.countP (fun c => !isSpaceC c) := by
  induction l with
  | nil => rfl
  | cons c l ih =>
      simp only [lowers, List.map_cons, List.countP_cons] at *
      rw [ih, lowerC_space]

theorem length_lowers (l : List Char) : (lowers l).length = l.length := by
  simp [lowers]

theorem substrB_iff {hay pat : List Char} : substrB hay pat = true ↔ pat <:+: hay := by
  simp [substrB]

/-! ## A small regular-expression matcher

Covers exactly the constructs used by the source's patterns:
literals, character classes, concatenation, alternation, `+`/`*`/`?`
over single-character classes, the word boundary `\b` and the start
anchor `^`.  `re.search` truthiness is modelled by `rsearch`. -/

/-- Word character for `\b` (ASCII `\w`). -/
def isWordC (c : Char) : Bool :=
  isUpperAZ c || isLowerAZ c || isDigit09 c || c.toNat == 95

/-- Regular-expression syntax. -/
inductive RE where
  | eps : RE
  | lit : Char → RE
  | cls : (Char → Bool) → RE
  | seq : RE → RE → RE
  | alt : RE → RE → RE
  | starC : (Char → Bool) → RE
  | bnd : RE
  | anchor : RE

/-- Is there a word boundary between the previous character and the next one? -/
def wordBoundary (p n : Option Char) : Bool :=
  (match p with | none => false | some c => isWordC c) !=
  (match n with | none => false | some c => isWordC c)

/-- All ways `starC f` can consume a prefix of `l` (previous character `p`). -/
def starMatches (f : Char → Bool) : Option Char → List Char → List (Option Char × List Char)
  | p, [] => [(p, [])]
  | p, c :: rest =>
      (p, c :: rest) :: (if f c then starMatches f (some c) rest else [])

/-- The nondeterministic matcher: all states `(previous char, remaining input)`
reachable by matching `r` at the current position. -/
def mmatch : RE → Option Char → List Char → List (Option Char × List Char)
  | .eps, p, l => [(p, l)]
  | .lit c, _, l =>
      match l with
      | [] => []
      | d :: rest => if d == c then [(some d, rest)] else []
  | .cls f, _, l =>
      match l with
      | [] => []
      | d :: rest => if f d then [(some d, rest)] else []
  | .seq a b, p, l => (mmatch a p l).flatMap (fun s => mmatch b s.1 s.2)
  | .alt a b, p, l => mmatch a p l ++ mmatch b p l
  | .starC f, p, l => starMatches f p l
  | .bnd, p, l => if wordBoundary p l.head? then [(p, l)] else []
  | .anchor, p, l => if p.isNone then [(p, l)] else []

/-- Search loop: try to match at every start position. -/
def msearch (r : RE) (p : Option Char) (l : List Char) : Bool :=
  !(mmatch r p l).isEmpty ||
    (match l with
     | [] => false
     | c :: rest => msearch r (some c) rest)

/-- Model of the truthiness of Python `re.search(r, l)`. -/
def rsearch (r : RE) (l : List Char) : Bool := msearch r none l

/-- Derived combinator: `r?`. -/
def ropt (r : RE) : RE := .alt r .eps

/-- Concatenation of a list of regexes. -/
def rcat (rs : List RE) : RE := rs.foldr .seq .eps

/-- Alternation of a nonempty list of regexes. -/
def ralts : List RE → RE
  | [] => .eps
  | [r] => r
  | r :: rest => .alt r (ralts rest)

/-- Literal string regex. -/
def lits (s : String) : RE := rcat (s.toList.map .lit)

/-- Alternation of literal strings: `(a|b|c)`. -/
def altStrs (ss : List String) : RE := ralts (ss.map lits)

/-- `\s+` -/
def wsP : RE := .seq (.cls isSpaceC) (.starC isSpaceC)

/-- `\s*` -/
def wsS : RE := .starC isSpaceC

/-- `.` (any char but newline) -/
def dotC (c : Char) : Bool := c.toNat != 10

/-- `.+` -/
def dotP : RE := .seq (.cls dotC) (.starC dotC)

/-- `.*` -/
def dotS : RE := .starC dotC

/-- `.{0,n}` -/
def dotUpTo : Nat → RE
  | 0 => .eps
  | n + 1 => .seq (ropt (.cls dotC)) (dotUpTo n)

/-- A lower bound on the number of characters any match of `r` consumes. -/
def minLen : RE → Nat
  | .eps => 0
  | .lit _ => 1
  | .cls _ => 1
  | .seq a b => minLen a + minLen b
  | .alt a b => min (minLen a) (minLen b)
  | .starC _ => 0
  | .bnd => 0
  | .anchor => 0

/-! ### Matcher consumption bounds -/

theorem starMatches_suffix {f : Char → Bool} {l : List Char} :
    ∀ {p : Option Char} {s : Option Char × List Char},
      s ∈ starMatches f p l → s.2 <:+ l := by
  induction l with
  | nil =>
      intro p s h
      unfold starMatches at h
      simp at h
      simp [h]
  | cons c rest ih =>
      intro p s h
      unfold starMatches at h
      rcases List.mem_cons.mp h with h | h
      · simp [h]
      · split at h
        · exact (ih h).trans (List.suffix_cons c rest)
        · simp at h

theorem mmatch_suffix (r : RE) :
    ∀ (p : Option Char) (l : List Char) (s : Option Char × List Char),
      s ∈ mmatch r p l → s.2 <:+ l ∧ s.2.length + minLen r ≤ l.length := by
  induction r with
  | eps =>
      intro p l s h
      unfold mmatch at h
      simp at h
      simp [h, minLen]
  | lit c =>
      intro p l s h
      unfold mmatch at h
      match l with
      | [] => simp at h
      | d :: rest =>
          simp only at h
          split at h
          · simp at h
            refine ⟨by simp [h], ?_⟩
            simp [h, minLen]
          · simp at h
  | cls f =>
      intro p l s h
      unfold mmatch at h
      match l with
      | [] => simp at h
      | d :: rest =>
          simp only at h
          split at h
          · simp at h
            refine ⟨by simp [h], ?_⟩
            simp [h, minLen]
          · simp at h
  | seq a b iha ihb =>
      intro p l s h
      unfold mmatch at h
      simp only [List.mem_flatMap] at h
      obtain ⟨s1, hs1, hs2⟩ := h
      obtain ⟨ha1, ha2⟩ := iha p l s1 hs1
      obtain ⟨hb1, hb2⟩ := ihb s1.1 s1.2 s hs2
      refine ⟨hb1.trans ha1, ?_⟩
      simp only [minLen]
      omega
  | alt a b iha ihb =>
      intro p l s h
      unfold mmatch at h
      rcases List.mem_append.mp h with h | h
      · obtain ⟨h1, h2⟩ := iha p l s h
        exact ⟨h1, by simp only [minLen]; omega⟩
      · obtain ⟨h1, h2⟩ := ihb p l s h
        exact ⟨h1, by simp only [minLen]; omega⟩
  | starC f =>
      intro p l s h
      have h1 := starMatches_suffix h
      exact ⟨h1, by simpa [minLen] using h1.length_le⟩
  | bnd =>
      intro p l s h
      unfold mmatch at h
      split at h
      · simp at h
        simp [h, minLen]
      · simp at h
  | anchor =>
      intro p l s h
      unfold mmatch at h
      split at h
      · simp at h
        simp [h, minLen]
      · simp at h

theorem mem_of_not_isEmpty {α : Type} {l : List α} (h : l.isEmpty = false) :
    ∃ s, s ∈ l := by
  cases l with
  | nil => simp at h
  | cons a l => exact ⟨a, List.mem_cons_self a l⟩

theorem msearch_minLen {r : RE} {p : Option Char} {l : List Char}
    (h : msearch r p l = true) : minLen r ≤ l.length := by
  induction l generalizing p with
  | nil =>
      unfold msearch at h
      simp only [Bool.or_eq_true, Bool.not_eq_true'] at h
      rcases h with h | h
      · obtain ⟨s, hs⟩ := mem_of_not_isEmpty h
        have := (mmatch_suffix r p [] s hs).2
        simp only [List.length_nil] at this
        omega
      · simp at h
  | cons c rest ih =>
      unfold msearch at h
      simp only [Bool.or_eq_true, Bool.not_eq_true'] at h
      rcases h with h | h
      · obtain ⟨s, hs⟩ := mem_of_not_isEmpty h
        have h2 := (mmatch_suffix r p (c :: rest) s hs).2
        simp only [List.length_cons] at h2 ⊢
        omega
      · have := ih h
        simp only [List.length_cons]
        omega

theorem rsearch_minLen {r : RE} {l : List Char} (h : rsearch r l = true) :
    minLen r ≤ l.length := msearch_minLen h

/-! ## The uppercase-token scanner of the symbol resolver

Model of `re.findall(r'\b[A-Z][A-Z0-9&\-]{1,15}\b', query)` in
`resolve_stock_from_query` (`src/analyst.py`): a token starts at a word
boundary with an uppercase letter, greedily extends with 1–15 characters
of the class `[A-Z0-9&\-]` and must end at a word boundary (shrinking the
greedy extension if necessary); scanning resumes after each match. -/

/-- The extension character class `[A-Z0-9&\-]`. -/
def isTokC (c : Char) : Bool :=
  isUpperAZ c || isDigit09 c || c.toNat == 38 || c.toNat == 45

/-- Given the reversed greedy extension and the input following it, return
the largest number of extension characters (≥ 1) that leaves a word
boundary after the match, if any; considered longest-first, mirroring the
backtracking of the greedy `{1,15}`. -/
def shrinkRev : List Char → List Char → Option Nat
  | [], _ => none
  | d :: ds, rest =>
      if wordBoundary (some d) rest.head? then some (d :: ds).length
      else shrinkRev ds (d :: rest)

/-- Number of extension characters kept for a token starting with `c0`,
extension `m`, and following input `rest`. -/
def shrinkTok (_c0 : Char) (m rest : List Char) : Option Nat :=
  shrinkRev m.reverse rest

theorem shrinkRev_bounds {rm rest : List Char} {j : Nat}
    (h : shrinkRev rm rest = some j) : 1 ≤ j ∧ j ≤ rm.length := by
  induction rm generalizing rest with
  | nil => simp [shrinkRev] at h
  | cons d ds ih =>
      unfold shrinkRev at h
      split at h
      · simp at h
        simp [← h]
      · have := ih h
        simp only [List.length_cons]
        omega

theorem shrinkTok_bounds {c0 : Char} {m rest : List Char} {j : Nat}
    (h : shrinkTok c0 m rest = some j) : 1 ≤ j ∧ j ≤ m.length := by
  have := shrinkRev_bounds h
  simpa using this

/-- Is the character before the current position a word character?
(`none` counts as non-word, as at the start of the input.) -/
def prevWordB (p : Option Char) : Bool :=
  match p with | none => false | some d => isWordC d

/-- The scanner itself; `p` is the character preceding the current position. -/
def scanTok : Option Char → List Char → List (List Char)
  | _, [] => []
  | p, c :: rest =>
      if isUpperAZ c && !prevWordB p then
        match shrinkTok c ((rest.takeWhile isTokC).take 15)
            (rest.drop ((rest.takeWhile isTokC).take 15).length) with
        | some j =>
            (c :: rest.take j) ::
              scanTok ((c :: rest.take j).getLast (by simp)) (rest.drop j)
        | none => scanTok (some c) rest
      else scanTok (some c) rest
termination_by _ l => l.length
decreasing_by
  · simp only [List.length_drop, List.length_cons]
    omega
  · simp only [List.length_cons]
    omega
  · simp only [List.length_cons]
    omega

/-- Start-side boundary fact: the character (if any) just before a token
start is not a word character. -/
def prevFree (p : Option Char) : Prop := ∀ d, p = some d → isWordC d = false

theorem scanTok_sound :
    ∀ (n : Nat) (p : Option Char) (l : List Char), l.length ≤ n →
      ∀ t ∈ scanTok p l,
        ∃ u v c0 ext, l = u ++ t ++ v ∧ t = c0 :: ext ∧ isUpperAZ c0 = true ∧
          (∀ c ∈ ext, isTokC c = true) ∧ 1 ≤ ext.length ∧
          ((u = [] ∧ prevFree p) ∨
            (u ≠ [] ∧ ∀ d, u.getLast? = some d → isWordC d = false)) := by
  intro n
  induction n with
  | zero =>
      intro p l hl t ht
      have : l = [] := List.eq_nil_of_length_eq_zero (Nat.le_zero.mp hl)
      subst this
      simp [scanTok] at ht
  | succ n ih =>
      intro p l hl t ht
      match l with
      | [] => simp [scanTok] at ht
      | c :: rest =>
          unfold scanTok at ht
          by_cases hg : (isUpperAZ c && !prevWordB p) = true
          · rw [if_pos hg] at ht
            simp only [Bool.and_eq_true, Bool.not_eq_eq_eq_not, Bool.not_true] at hg
            obtain ⟨hup, hpw⟩ := hg
            set m := (rest.takeWhile isTokC).take 15 with hm
            have hmpre : m <+: rest :=
              (List.take_prefix 15 (rest.takeWhile isTokC)).trans
                (List.takeWhile_prefix isTokC)
            match hs : shrinkTok c m (rest.drop m.length) with
            | some j =>
                rw [hs] at ht
                obtain ⟨hj1, hj2⟩ := shrinkTok_bounds hs
                have hmlen : m.length ≤ rest.length := hmpre.length_le
                have hmtake : m = rest.take m.length := List.prefix_iff_eq_take.mp hmpre
                have htakej : rest.take j = m.take j := by
                  rw [hmtake, List.take_take]
                  congr 1
                  omega
                have hextlen : (rest.take j).length = j := by
                  rw [List.length_take]
                  omega
                have hext : ∀ x ∈ rest.take j, isTokC x = true := by
                  intro x hx
                  rw [htakej] at hx
                  have hx2 : x ∈ m := List.mem_of_mem_take hx
                  have hx3 : x ∈ rest.takeWhile isTokC := List.mem_of_mem_take hx2
                  exact List.mem_takeWhile_imp hx3
                rcases List.mem_cons.mp ht with hteq | htrec
                · refine ⟨[], rest.drop j, c, rest.take j, ?_, hteq, hup, hext, ?_, ?_⟩
                  · simp [hteq, List.take_append_drop]
                  · omega
                  · left
                    refine ⟨rfl, ?_⟩
                    intro d hd
                    subst hd
                    simpa [prevWordB] using hpw
                · have hlen2 : (rest.drop j).length ≤ n := by
                    simp only [List.length_cons] at hl
                    simp only [List.length_drop]
                    omega
                  obtain ⟨u2, v2, c2, ext2, heq2, ht2, hup2, hext2, hel2, hb2⟩ :=
                    ih _ (rest.drop j) hlen2 t htrec
                  refine ⟨c :: rest.take j ++ u2, v2, c2, ext2, ?_, ht2, hup2, hext2, hel2, ?_⟩
                  · have : rest = rest.take j ++ rest.drop j := (List.take_append_drop j rest).symm
                    calc c :: rest = c :: (rest.take j ++ rest.drop j) := by rw [← this]
                      _ = c :: (rest.take j ++ (u2 ++ t ++ v2)) := by rw [← heq2]
                      _ = (c :: rest.take j ++ u2) ++ t ++ v2 := by simp
                  · right
                    constructor
                    · simp
                    · intro d hd
                      rcases hb2 with ⟨hu2nil, hpf⟩ | ⟨hu2ne, hlast⟩
                      · subst hu2nil
                        simp only [List.append_nil] at hd
                        have hgl : (c :: rest.take j).getLast? =
                            some ((c :: rest.take j).getLast (by simp)) := by
                          rw [List.getLast?_eq_getLast]
                        rw [hgl] at hd
                        have := hpf _ rfl
                        injection hd with hd2
                        rw [← hd2]
                        exact this
                      · rw [List.getLast?_append_of_ne_nil _ hu2ne] at hd
                        exact hlast d hd
            | none =>
                rw [hs] at ht
                have hlen2 : rest.length ≤ n := by
                  simp only [List.length_cons] at hl
                  omega
                obtain ⟨u2, v2, c2, ext2, heq2, ht2, hup2, hext2, hel2, hb2⟩ :=
                  ih (some c) rest hlen2 t ht
                refine ⟨c :: u2, v2, c2, ext2, by simp [heq2], ht2, hup2, hext2, hel2, ?_⟩
                right
                constructor
                · simp
                · intro d hd
                  rcases hb2 with ⟨hu2nil, hpf⟩ | ⟨hu2ne, hlast⟩
                  · subst hu2nil
                    simp only [List.getLast?_singleton] at hd
                    injection hd with hd2
                    rw [← hd2]
                    exact hpf c rfl
                  · rw [show c :: u2 = [c] ++ u2 from rfl,
                      List.getLast?_append_of_ne_nil _ hu2ne] at hd
                    exact hlast d hd
          · rw [if_neg hg] at ht
            have hlen2 : rest.length ≤ n := by
              simp only [List.length_cons] at hl
              omega
            obtain ⟨u2, v2, c2, ext2, heq2, ht2, hup2, hext2, hel2, hb2⟩ :=
              ih (some c) rest hlen2 t ht
            refine ⟨c :: u2, v2, c2, ext2, by simp [heq2], ht2, hup2, hext2, hel2, ?_⟩
            right
            constructor
            · simp
            · intro d hd
              rcases hb2 with ⟨hu2nil, hpf⟩ | ⟨hu2ne, hlast⟩
              · subst hu2nil
                simp only [List.getLast?_singleton] at hd
                injection hd with hd2
                rw [← hd2]
                exact hpf c rfl
              · rw [show c :: u2 = [c] ++ u2 from rfl,
                  List.getLast?_append_of_ne_nil _ hu2ne] at hd
                exact hlast d hd

/-! ## Data tables from the source -/

/-- Characters of a list of string literals. -/
def csl (ss : List String) : List (List Char) := ss.map cs

/-- Characters of a list of pairs of string literals. -/
def pairsCS (ps : List (String × String)) : List (List Char × List Char) :=
  ps.map (fun p => (cs p.1, cs p.2))

/-- `STOCK_NAME_MAP` from `src/analyst.py`, in source (dict-insertion) order. -/
def STOCK_NAME_MAP : List (List Char × List Char) := pairsCS [
  ("zomato", "ZOMATO"), ("swiggy", "SWIGGY"), ("paytm", "PAYTM"),
  ("one97", "PAYTM"), ("nykaa", "NYKAA"), ("policybazaar", "POLICYBZR"),
  ("delhivery", "DELHIVERY"), ("irctc", "IRCTC"), ("easemytrip", "EASEMYTRIP"),
  ("jio financial", "JIOFIN"), ("jio", "JIOFIN"), ("tcs", "TCS"),
  ("infosys", "INFY"), ("infy", "INFY"), ("wipro", "WIPRO"),
  ("hcl tech", "HCLTECH"), ("hcltech", "HCLTECH"), ("tech mahindra", "TECHM"),
  ("techm", "TECHM"), ("persistent", "PERSISTENT"), ("coforge", "COFORGE"),
  ("ltimindtree", "LTIM"), ("hdfc bank", "HDFCBANK"), ("hdfcbank", "HDFCBANK"),
  ("icici bank", "ICICIBANK"), ("icicibank", "ICICIBANK"), ("sbi", "SBIN"),
  ("kotak", "KOTAKBANK"), ("axis bank", "AXISBANK"), ("indusind", "INDUSINDBK"),
  ("federal bank", "FEDERALBNK"), ("bandhan bank", "BANDHANBNK"), ("idfc first", "IDFCFIRSTB"),
  ("reliance", "RELIANCE"), ("ril", "RELIANCE"), ("ongc", "ONGC"),
  ("bpcl", "BPCL"), ("ntpc", "NTPC"), ("power grid", "POWERGRID"),
  ("tata power", "TATAPOWER"), ("adani green", "ADANIGREEN"), ("adani enterprises", "ADANIENT"),
  ("adani ports", "ADANIPORTS"), ("adani", "ADANIENT"), ("bharti airtel", "BHARTIARTL"),
  ("airtel", "BHARTIARTL"), ("itc", "ITC"), ("hul", "HINDUNILVR"),
  ("hindustan unilever", "HINDUNILVR"), ("maruti", "MARUTI"), ("tata motors", "TATAMOTORS"),
  ("bajaj finance", "BAJFINANCE"), ("asian paints", "ASIANPAINT"), ("sun pharma", "SUNPHARMA"),
  ("dr reddy", "DRREDDY"), ("titan", "TITAN"), ("l&t", "LT"),
  ("larsen", "LT"), ("tata steel", "TATASTEEL"), ("jsw steel", "JSWSTEEL"),
  ("hindalco", "HINDALCO"), ("coal india", "COALINDIA"), ("ultratech", "ULTRACEMCO"),
  ("cipla", "CIPLA"), ("apollo hospitals", "APOLLOHOSP"), ("apollo", "APOLLOHOSP"),
  ("divis lab", "DIVISLAB"), ("hdfc life", "HDFCLIFE"), ("sbi life", "SBILIFE"),
  ("bajaj finserv", "BAJAJFINSV"), ("mahindra", "M&M"), ("m&m", "M&M"),
  ("eicher", "EICHERMOT"), ("hero motocorp", "HEROMOTOCO"), ("hal", "HAL"),
  ("bel", "BEL"), ("vedanta", "VEDL"), ("apple", "AAPL"),
  ("aapl", "AAPL"), ("google", "GOOGL"), ("googl", "GOOGL"),
  ("alphabet", "GOOGL"), ("microsoft", "MSFT"), ("msft", "MSFT"),
  ("amazon", "AMZN"), ("amzn", "AMZN"), ("tesla", "TSLA"),
  ("tsla", "TSLA"), ("meta", "META"), ("facebook", "META"),
  ("nvidia", "NVDA"), ("nvda", "NVDA"), ("netflix", "NFLX"),
  ("nflx", "NFLX"), ("amd", "AMD"), ("intel", "INTC"),
  ("intc", "INTC"), ("salesforce", "CRM"), ("crm", "CRM"),
  ("oracle", "ORCL"), ("orcl", "ORCL"), ("paypal", "PYPL"),
  ("pypl", "PYPL"), ("disney", "DIS"), ("dis", "DIS"),
  ("boeing", "BA"), ("jpmorgan", "JPM"), ("jp morgan", "JPM"),
  ("jpm", "JPM"), ("goldman sachs", "GS"), ("goldman", "GS"),
  ("visa", "V"), ("mastercard", "MA"), ("walmart", "WMT"),
  ("wmt", "WMT"), ("coca cola", "KO"), ("coca-cola", "KO"),
  ("coke", "KO"), ("pepsi", "PEP"), ("pepsico", "PEP"),
  ("pfizer", "PFE"), ("exxon", "XOM"), ("exxon mobil", "XOM"),
  ("chevron", "CVX"), ("berkshire", "BRK-B"), ("berkshire hathaway", "BRK-B"),
  ("spotify", "SPOT"), ("uber", "UBER"), ("airbnb", "ABNB"),
  ("snowflake", "SNOW"), ("palantir", "PLTR"), ("coinbase", "COIN"),
  ("block", "SQ"), ("square", "SQ"), ("shopify", "SHOP"),
  ("zoom", "ZM"), ("alibaba", "BABA"), ("tsmc", "TSM"),
  ("sony", "SONY"), ("nike", "NKE"), ("starbucks", "SBUX"),
  ("bitcoin", "BTC"), ("btc", "BTC"), ("ethereum", "ETH"),
  ("eth", "ETH"), ("solana", "SOL"), ("sol", "SOL"),
  ("ripple", "XRP"), ("xrp", "XRP"), ("cardano", "ADA"),
  ("ada", "ADA"), ("dogecoin", "DOGE"), ("doge", "DOGE"),
  ("polkadot", "DOT"), ("avalanche", "AVAX"), ("polygon", "MATIC"),
  ("chainlink", "LINK"), ("bnb", "BNB"), ("cryptocurrency", "__CRYPTO_GENERAL__"),
  ("crypto", "__CRYPTO_GENERAL__"), ("gold", "GOLD"), ("silver", "SILVER"),
  ("crude oil", "CRUDE"), ("crude", "CRUDE"), ("oil", "CRUDE"),
  ("natural gas", "NATURALGAS")]

/-- `SYMBOL_MAP` from `src/market_tools.py`, in source order. -/
def SYMBOL_MAP : List (List Char × List Char) := pairsCS [
  ("TCS", "TCS.NS"), ("INFY", "INFY.NS"), ("WIPRO", "WIPRO.NS"),
  ("HCLTECH", "HCLTECH.NS"), ("TECHM", "TECHM.NS"), ("LTI", "LTIM.NS"),
  ("LTIM", "LTIM.NS"), ("PERSISTENT", "PERSISTENT.NS"), ("COFORGE", "COFORGE.NS"),
  ("HDFCBANK", "HDFCBANK.NS"), ("ICICIBANK", "ICICIBANK.NS"), ("SBIN", "SBIN.NS"),
  ("KOTAKBANK", "KOTAKBANK.NS"), ("AXISBANK", "AXISBANK.NS"), ("BANKBARODA", "BANKBARODA.NS"),
  ("PNB", "PNB.NS"), ("INDUSINDBK", "INDUSINDBK.NS"), ("IDFCFIRSTB", "IDFCFIRSTB.NS"),
  ("BANDHANBNK", "BANDHANBNK.NS"), ("FEDERALBNK", "FEDERALBNK.NS"), ("RELIANCE", "RELIANCE.NS"),
  ("ONGC", "ONGC.NS"), ("BPCL", "BPCL.NS"), ("IOC", "IOC.NS"),
  ("NTPC", "NTPC.NS"), ("POWERGRID", "POWERGRID.NS"), ("ADANIGREEN", "ADANIGREEN.NS"),
  ("ADANIENT", "ADANIENT.NS"), ("ADANIPORTS", "ADANIPORTS.NS"), ("ADANIPOWER", "ADANIPOWER.NS"),
  ("ZOMATO", "ZOMATO.NS"), ("PAYTM", "PAYTM.NS"), ("ONEPAYTM", "PAYTM.NS"),
  ("ONE97", "PAYTM.NS"), ("NYKAA", "NYKAA.NS"), ("POLICYBZR", "POLICYBZR.NS"),
  ("DELHIVERY", "DELHIVERY.NS"), ("CARTRADE", "CARTRADE.NS"), ("EASEMYTRIP", "EASEMYTRIP.NS"),
  ("IRCTC", "IRCTC.NS"), ("JIOFIN", "JIOFIN.NS"), ("SWIGGY", "SWIGGY.NS"),
  ("BHARTIARTL", "BHARTIARTL.NS"), ("ITC", "ITC.NS"), ("HINDUNILVR", "HINDUNILVR.NS"),
  ("MARUTI", "MARUTI.NS"), ("TATAMOTORS", "TATAMOTORS.NS"), ("BAJFINANCE", "BAJFINANCE.NS"),
  ("ASIANPAINT", "ASIANPAINT.NS"), ("SUNPHARMA", "SUNPHARMA.NS"), ("DRREDDY", "DRREDDY.NS"),
  ("TITAN", "TITAN.NS"), ("LT", "LT.NS"), ("TATASTEEL", "TATASTEEL.NS"),
  ("JSWSTEEL", "JSWSTEEL.NS"), ("HINDALCO", "HINDALCO.NS"), ("COALINDIA", "COALINDIA.NS"),
  ("ULTRACEMCO", "ULTRACEMCO.NS"), ("GRASIM", "GRASIM.NS"), ("CIPLA", "CIPLA.NS"),
  ("APOLLOHOSP", "APOLLOHOSP.NS"), ("DIVISLAB", "DIVISLAB.NS"), ("HDFCLIFE", "HDFCLIFE.NS"),
  ("SBILIFE", "SBILIFE.NS"), ("BAJAJFINSV", "BAJAJFINSV.NS"), ("M&M", "M&M.NS"),
  ("MAHINDRA", "M&M.NS"), ("EICHERMOT", "EICHERMOT.NS"), ("HEROMOTOCO", "HEROMOTOCO.NS"),
  ("TATAPOWER", "TATAPOWER.NS"), ("HAL", "HAL.NS"), ("BEL", "BEL.NS"),
  ("VEDL", "VEDL.NS"), ("NIFTY50", "^NSEI"), ("SENSEX", "^BSESN"),
  ("BANKNIFTY", "^NSEBANK"), ("NIFTYIT", "^CNXIT"), ("AAPL", "AAPL"),
  ("APPLE", "AAPL"), ("GOOGL", "GOOGL"), ("GOOGLE", "GOOGL"),
  ("GOOG", "GOOGL"), ("ALPHABET", "GOOGL"), ("MSFT", "MSFT"),
  ("MICROSOFT", "MSFT"), ("AMZN", "AMZN"), ("AMAZON", "AMZN"),
  ("TSLA", "TSLA"), ("TESLA", "TSLA"), ("META", "META"),
  ("FACEBOOK", "META"), ("FB", "META"), ("NVDA", "NVDA"),
  ("NVIDIA", "NVDA"), ("NFLX", "NFLX"), ("NETFLIX", "NFLX"),
  ("AMD", "AMD"), ("INTC", "INTC"), ("INTEL", "INTC"),
  ("CRM", "CRM"), ("SALESFORCE", "CRM"), ("ORCL", "ORCL"),
  ("ORACLE", "ORCL"), ("PYPL", "PYPL"), ("PAYPAL", "PYPL"),
  ("DIS", "DIS"), ("DISNEY", "DIS"), ("BA", "BA"),
  ("BOEING", "BA"), ("JPM", "JPM"), ("JPMORGAN", "JPM"),
  ("GS", "GS"), ("GOLDMAN", "GS"), ("V", "V"),
  ("VISA", "V"), ("MA", "MA"), ("MASTERCARD", "MA"),
  ("WMT", "WMT"), ("WALMART", "WMT"), ("KO", "KO"),
  ("COCACOLA", "KO"), ("COCA-COLA", "KO"), ("PEP", "PEP"),
  ("PEPSI", "PEP"), ("JNJ", "JNJ"), ("PFE", "PFE"),
  ("PFIZER", "PFE"), ("UNH", "UNH"), ("XOM", "XOM"),
  ("EXXON", "XOM"), ("CVX", "CVX"), ("CHEVRON", "CVX"),
  ("BRK-B", "BRK-B"), ("BERKSHIRE", "BRK-B"), ("SPOT", "SPOT"),
  ("SPOTIFY", "SPOT"), ("UBER", "UBER"), ("ABNB", "ABNB"),
  ("AIRBNB", "ABNB"), ("SNOW", "SNOW"), ("SNOWFLAKE", "SNOW"),
  ("PLTR", "PLTR"), ("PALANTIR", "PLTR"), ("COIN", "COIN"),
  ("COINBASE", "COIN"), ("SQ", "SQ"), ("BLOCK", "SQ"),
  ("SHOP", "SHOP"), ("SHOPIFY", "SHOP"), ("ZM", "ZM"),
  ("ZOOM", "ZM"), ("BABA", "BABA"), ("ALIBABA", "BABA"),
  ("TSM", "TSM"), ("TSMC", "TSM"), ("SONY", "SONY"),
  ("NKE", "NKE"), ("NIKE", "NKE"), ("SBUX", "SBUX"),
  ("STARBUCKS", "SBUX"), ("SPX", "^GSPC"), ("SP500", "^GSPC"),
  ("S&P500", "^GSPC"), ("S&P", "^GSPC"), ("DOWJONES", "^DJI"),
  ("DOW", "^DJI"), ("DJI", "^DJI"), ("NASDAQ", "^IXIC"),
  ("NASDAQCOMP", "^IXIC"), ("VIX", "^VIX"), ("RUSSELL2000", "^RUT"),
  ("BTC", "BTC-USD"), ("BITCOIN", "BTC-USD"), ("BTC-USD", "BTC-USD"),
  ("ETH", "ETH-USD"), ("ETHEREUM", "ETH-USD"), ("ETH-USD", "ETH-USD"),
  ("SOL", "SOL-USD"), ("SOLANA", "SOL-USD"), ("SOL-USD", "SOL-USD"),
  ("BNB", "BNB-USD"), ("BNB-USD", "BNB-USD"), ("XRP", "XRP-USD"),
  ("RIPPLE", "XRP-USD"), ("XRP-USD", "XRP-USD"), ("ADA", "ADA-USD"),
  ("CARDANO", "ADA-USD"), ("ADA-USD", "ADA-USD"), ("DOGE", "DOGE-USD"),
  ("DOGECOIN", "DOGE-USD"), ("DOGE-USD", "DOGE-USD"), ("DOT", "DOT-USD"),
  ("POLKADOT", "DOT-USD"), ("AVAX", "AVAX-USD"), ("AVALANCHE", "AVAX-USD"),
  ("MATIC", "MATIC-USD"), ("POLYGON", "MATIC-USD"), ("LINK", "LINK-USD"),
  ("CHAINLINK", "LINK-USD"), ("GOLD", "GC=F"), ("SILVER", "SI=F"),
  ("CRUDE", "CL=F"), ("CRUDEOIL", "CL=F"), ("NATURALGAS", "NG=F")]

/-- ASCII char-wise uppering (model of Python `str.upper` on ASCII text). -/
def upperC (c : Char) : Char :=
  if isLowerAZ c then Char.ofNat (c.toNat - 32) else c

/-- Uppercase a string. -/
def uppers (l : List Char) : List Char := l.map upperC

/-- Stable insertion into a length-descending-sorted list (model of the
stability of Python `sorted(..., key=len, reverse=True)`). -/
def insDescLen (x : List Char) : List (List Char) → List (List Char)
  | [] => [x]
  | y :: ys => if y.length ≤ x.length then x :: y :: ys else y :: insDescLen x ys

/-- `sorted(STOCK_NAME_MAP.keys(), key=len, reverse=True)` — longest first,
ties in dict order. -/
def sortedNames : List (List Char) :=
  (STOCK_NAME_MAP.map (fun p => p.1)).foldr insDescLen []

/-- Association-list get (model of `STOCK_NAME_MAP[name]`). -/
def assocGet (k : List Char) : List (List Char × List Char) → List Char
  | [] => []
  | (k2, v) :: rest => if k2 = k then v else assocGet k rest

/-- Key membership (model of `word in SYMBOL_MAP`). -/
def assocMem (k : List Char) (m : List (List Char × List Char)) : Bool :=
  (m.map (fun p => p.1)).contains k

/-- One iteration of the alias-matching loop of `resolve_stock_from_query`:
on a match, record the mapped symbol (unless already recorded or the
crypto-general sentinel) and erase the alias from the working query. -/
def aliasStep (st : List Char × List (List Char)) (name : List Char) :
    List Char × List (List Char) :=
  if substrB st.1 name then
    let symbol := assocGet name STOCK_NAME_MAP
    let found2 :=
      if symbol ∉ st.2 ∧ symbol ≠ cs "__CRYPTO_GENERAL__" then st.2 ++ [symbol] else st.2
    (replaceAll st.1 name (cs " "), found2)
  else st

/-- Model of `resolve_stock_from_query` (`src/analyst.py`): alias scan over
the lower-cased query (longest aliases first), then the uppercase-token
scan over the original query against `SYMBOL_MAP`. -/
def resolve_stock_from_query (query : List Char) : List (List Char) :=
  let st := sortedNames.foldl aliasStep (lowers query, [])
  (scanTok none query).foldl
    (fun f w => if assocMem w SYMBOL_MAP ∧ w ∉ f then f ++ [w] else f) st.2

/-- `is_crypto_query` (`src/analyst.py`). -/
def is_crypto_query (query : List Char) : Bool :=
  (csl ["crypto", "cryptocurrency", "bitcoin", "ethereum", "blockchain",
        "defi", "nft", "web3", "altcoin", "token", "mining"]).any
    (fun w => substrB (lowers query) w)

/-! ## Fuel-driven computation twins

`replaceAll` and `scanTok` recurse on a decreasing length measure, so the
kernel cannot evaluate them definitionally on concrete inputs.  The
following structurally recursive twins compute the same functions (proved
below) and let concrete instances of `resolve_stock_from_query` be settled
by `decide`. -/

def replaceAllF : ℕ → List Char → List Char → List Char → List Char
  | 0, l, _, _ => l
  | fuel + 1, l, pat, rep =>
      if pat = [] then l
      else if pat.isPrefixOf l then
        rep ++ replaceAllF fuel (l.drop pat.length) pat rep
      else
        match l with
        | [] => []
        | c :: rest => c :: replaceAllF fuel rest pat rep

theorem replaceAllF_eq :
    ∀ (fuel : ℕ) (l pat rep : List Char), l.length ≤ fuel →
      replaceAllF fuel l pat rep = replaceAll l pat rep := by
  intro fuel
  induction fuel with
  | zero =>
      intro l pat rep h
      have hl : l = [] := by
        cases l with
        | nil => rfl
        | cons c cs2 => simp at h
      subst hl
      unfold replaceAll
      split_ifs with h1 h2
      · rfl
      · have hpre := List.isPrefixOf_iff_prefix.mp h2
        have : pat = [] := List.prefix_nil.mp hpre
        exact absurd this h1
      · rfl
  | succ fuel ih =>
      intro l pat rep h
      cases l with
      | nil =>
          unfold replaceAll
          simp only [replaceAllF]
          split_ifs with h1 h2
          · rfl
          · have hpre := List.isPrefixOf_iff_prefix.mp h2
            have : pat = [] := List.prefix_nil.mp hpre
            exact absurd this h1
          · rfl
      | cons c rest =>
          simp only [List.length_cons] at h
          unfold replaceAll
          simp only [replaceAllF]
          split_ifs with h1 h2
          · rfl
          · have hp : pat <+: c :: rest := List.isPrefixOf_iff_prefix.mp h2
            have hplen : 1 ≤ pat.length := by
              cases pat with
              | nil => exact absurd rfl h1
              | cons a as => simp
            rw [ih]
            simp only [List.length_drop, List.length_cons]
            omega
          · rw [ih]
            omega

def scanTokF : ℕ → Option Char → List Char → List (List Char)
  | 0, _, _ => []
  | _ + 1, _, [] => []
  | fuel + 1, p, c :: rest =>
      if isUpperAZ c && !prevWordB p then
        match shrinkTok c ((rest.takeWhile isTokC).take 15)
            (rest.drop ((rest.takeWhile isTokC).take 15).length) with
        | some j =>
            (c :: rest.take j) ::
              scanTokF fuel ((c :: rest.take j).getLast (by simp)) (rest.drop j)
        | none => scanTokF fuel (some c) rest
      else scanTokF fuel (some c) rest

theorem scanTokF_eq :
    ∀ (fuel : ℕ) (p : Option Char) (l : List Char), l.length ≤ fuel →
      scanTokF fuel p l = scanTok p l := by
  intro fuel
  induction fuel with
  | zero =>
      intro p l h
      have hl : l = [] := by
        cases l with
        | nil => rfl
        | cons c cs2 => simp at h
      subst hl
      simp [scanTokF, scanTok]
  | succ fuel ih =>
      intro p l h
      cases l with
      | nil => simp [scanTokF, scanTok]
      | cons c rest =>
          simp only [List.length_cons] at h
          unfold scanTok
          simp only [scanTokF]
          split_ifs with h1
          · cases hs : shrinkTok c ((rest.takeWhile isTokC).take 15)
                (rest.drop ((rest.takeWhile isTokC).take 15).length) with
            | none => exact ih (some c) rest (by omega)
            | some j =>
                obtain ⟨hj1, hj2⟩ := shrinkTok_bounds hs
                simp only []
                rw [ih ((c :: rest.take j).getLast (by simp)) (rest.drop j)
                  (by simp only [List.length_drop]; omega)]
          · exact ih (some c) rest (by omega)

/-- `resolve_stock_from_query` with the computation twins substituted. -/
def resolveF (query : List Char) : List (List Char) :=
  let st := sortedNames.foldl
    (fun st name =>
      if substrB st.1 name then
        let symbol := assocGet name STOCK_NAME_MAP
        let found2 :=
          if symbol ∉ st.2 ∧ symbol ≠ cs "__CRYPTO_GENERAL__" then st.2 ++ [symbol]
          else st.2
        (replaceAllF (st.1.length + 1) st.1 name (cs " "), found2)
      else st) (lowers query, [])
  (scanTokF (query.length + 1) none query).foldl
    (fun f w => if assocMem w SYMBOL_MAP ∧ w ∉ f then f ++ [w] else f) st.2

theorem resolveF_eq (query : List Char) :
    resolveF query = resolve_stock_from_query query := by
  unfold resolveF resolve_stock_from_query
  have h1 : (fun (st : List Char × List (List Char)) name =>
      if substrB st.1 name then
        let symbol := assocGet name STOCK_NAME_MAP
        let found2 :=
          if symbol ∉ st.2 ∧ symbol ≠ cs "__CRYPTO_GENERAL__" then st.2 ++ [symbol]
          else st.2
        (replaceAllF (st.1.length + 1) st.1 name (cs " "), found2)
      else st) = aliasStep := by
    funext st name
    unfold aliasStep
    split_ifs with hc
    · rw [replaceAllF_eq _ _ _ _ (Nat.le_succ _)]
    · rfl
  rw [h1, scanTokF_eq _ none query (Nat.le_succ _)]

/-! ## Query routes and the classification result -/

namespace QueryRoute

def STOCK_PRICE : List Char := cs "STOCK_PRICE"
def RECOMMENDATIONS : List Char := cs "RECOMMENDATIONS"
def FUNDAMENTALS : List Char := cs "FUNDAMENTALS"
def COMPARISON : List Char := cs "COMPARISON"
def TECHNICALS : List Char := cs "TECHNICALS"
def NEWS_SEARCH : List Char := cs "NEWS_SEARCH"
def PORTFOLIO : List Char := cs "PORTFOLIO"
def DISCOVERY : List Char := cs "DISCOVERY"
def GENERAL_MARKET : List Char := cs "GENERAL"
def CONVERSATIONAL : List Char := cs "CHAT"

end QueryRoute

/-- The classification result dict of `classify_query`; the keys that are
present only on some routes (`is_crypto`, `discovery_symbols`,
`portfolio_symbols`) default to `false`/`[]` when absent. -/
structure ClassificationResult where
  route : List Char
  symbols : List (List Char)
  is_summary : Bool
  needs_web : Bool
  intent : List Char
  is_crypto : Bool := false
  discovery_symbols : List (List Char) := []
  portfolio_symbols : List (List Char) := []
deriving DecidableEq, Repr

/-! ## Intent patterns -/

/-- One entry of `INTENT_PATTERNS`. -/
structure IntentGroup where
  route : List Char
  patterns : List RE
  keywords : List (List Char)

/-- The apostrophe character. -/
def apos : Char := Char.ofNat 39

/-- The period character. -/
def chrDot : Char := Char.ofNat 46

/-- The first entry of `INTENT_PATTERNS` (the comparison intent group). -/
def comparisonGroup : IntentGroup :=
  { route := QueryRoute.COMPARISON,
    patterns := [
      rcat [lits "compare", wsP, dotP, wsP, altStrs ["and", "vs", "versus", "with"], wsP],
      rcat [altStrs ["difference", "comparison"], wsP, lits "between", wsP],
      rcat [dotP, wsP, lits "vs", ropt (.lit chrDot), wsP, dotP],
      rcat [lits "which", wsP, lits "is", wsP, lits "better", dotP, wsP,
        altStrs ["or", "vs"], wsP],
      rcat [lits "head", wsS, lits "to", wsS, lits "head"]],
    keywords := csl ["compare", "comparison", "versus", "vs", "head to head",
      "which is better", "difference between"] }

/-- `INTENT_PATTERNS` from `src/analyst.py`, in priority order. -/
def INTENT_PATTERNS : List IntentGroup := [
  comparisonGroup,
  { route := QueryRoute.STOCK_PRICE,
    patterns := [
      rcat [ralts [rcat [lits "what", ropt (.lit apos), .lit 's'],
          rcat [lits "what", wsP, lits "is"], lits "get", lits "show", lits "tell"],
        wsP, ropt (rcat [lits "the", wsP]), ropt (rcat [lits "current", wsP]),
        ropt (rcat [lits "stock", wsP]), altStrs ["price", "value", "quote"]],
      rcat [altStrs ["price", "quote"], wsP, altStrs ["of", "for"], wsP],
      rcat [lits "how", wsP, lits "much", wsP, altStrs ["is", "does", "are"], wsP],
      rcat [altStrs ["stock", "share"], wsP, lits "price"],
      rcat [altStrs ["current", "live", "today"], dotUpTo 10,
        altStrs ["price", "value", "trading"]]],
    keywords := csl ["current price", "stock price", "share price", "price of",
      "trading at", "how much is", "quote for", "price today"] },
  { route := QueryRoute.RECOMMENDATIONS,
    patterns := [
      rcat [ralts [lits "analyst", lits "broker", rcat [lits "wall", wsS, lits "street"]],
        wsP, altStrs ["recommend", "rating", "target", "opinion", "view", "consensus"]],
      rcat [ralts [lits "recommend", lits "rating", rcat [lits "target", wsP, lits "price"]],
        wsP, altStrs ["for", "of", "on"], wsP],
      rcat [altStrs ["buy", "sell", "hold"], wsP, lits "recommend"],
      ralts [rcat [lits "should", wsP, lits "i", wsP, lits "buy"],
        rcat [lits "is", wsP, lits "it", wsP, lits "a", wsP, lits "good", wsP, lits "buy"]],
      ralts [rcat [lits "target", wsP, lits "price"], rcat [lits "price", wsP, lits "target"]],
      altStrs ["upgrade", "downgrade"]],
    keywords := csl ["analyst", "recommendation", "recommendations", "target price",
      "price target", "rating", "ratings", "upgrade", "downgrade", "consensus",
      "broker", "wall street", "should i buy", "good buy", "worth buying"] },
  { route := QueryRoute.FUNDAMENTALS,
    patterns := [
      rcat [lits "fundamental", ropt (.lit 's'), wsP, altStrs ["of", "for", "analysis"]],
      rcat [ralts [lits "financials", rcat [lits "financial", wsP, lits "data"],
          rcat [lits "financial", wsP, lits "health"]], wsP, altStrs ["of", "for"]],
      ralts [rcat [lits "pe", wsP, lits "ratio"], lits "p/e",
        rcat [lits "market", wsP, lits "cap"], lits "revenue", lits "earnings",
        lits "profit", lits "margin", lits "debt", rcat [lits "balance", wsP, lits "sheet"],
        rcat [lits "income", wsP, lits "statement"]],
      ralts [lits "valuation", lits "overvalued", lits "undervalued",
        rcat [lits "fair", wsP, lits "value"]],
      ralts [lits "dividend", lits "yield", lits "payout", lits "eps",
        rcat [lits "book", wsP, lits "value"], lits "roe", lits "roa"]],
    keywords := csl ["fundamentals", "fundamental analysis", "financials",
      "financial data", "pe ratio", "p/e", "market cap", "revenue",
      "earnings per share", "eps", "profit margin", "debt", "balance sheet",
      "income statement", "valuation", "overvalued", "undervalued", "fair value",
      "book value", "roe", "roa", "dividend yield", "payout ratio",
      "financial health"] },
  { route := QueryRoute.TECHNICALS,
    patterns := [
      rcat [lits "technical", wsP, altStrs ["analysis", "indicator", "signal", "chart"]],
      ralts [lits "rsi", lits "macd", lits "bollinger",
        rcat [lits "moving", wsP, lits "average"], lits "sma", lits "ema",
        lits "support", lits "resistance"],
      ralts [lits "overbought", lits "oversold", lits "momentum",
        rcat [lits "trend", wsP, lits "analysis"]],
      ralts [rcat [lits "chart", wsP, lits "pattern"], lits "candlestick"]],
    keywords := csl ["technical analysis", "technicals", "rsi", "macd", "bollinger",
      "moving average", "sma", "ema", "support", "resistance", "overbought",
      "oversold", "momentum", "chart", "trend analysis", "candlestick",
      "technical indicators"] },
  { route := QueryRoute.NEWS_SEARCH,
    patterns := [
      rcat [altStrs ["latest", "recent", "breaking", "today"], wsP,
        altStrs ["news", "update", "development", "headline"]],
      rcat [lits "news", wsP, altStrs ["about", "on", "for", "regarding"]],
      rcat [lits "what", wsP, ralts [lits "happened",
        rcat [lits "is", wsP, lits "happening"],
        rcat [lits "is", wsP, lits "going", wsP, lits "on"]]],
      ralts [rcat [lits "tell", wsP, lits "me", wsP, lits "about"],
        rcat [lits "information", wsP, lits "about"],
        rcat [lits "info", wsP, lits "on"]]],
    keywords := csl ["news", "latest", "recent news", "breaking", "headlines",
      "what happened", "update", "updates", "developments", "information about",
      "tell me about", "going on with"] }]

/-- Does this intent group match the lowered query (regex patterns first,
then plain keywords — any hit selects the group)? -/
def groupMatches (g : IntentGroup) (q : List Char) : Bool :=
  g.patterns.any (fun r => rsearch r q) || g.keywords.any (fun k => substrB q k)

/-- The intent-pattern walk: first matching group wins. -/
def matchIntent (q : List Char) : Option (List Char) :=
  (INTENT_PATTERNS.find? (fun g => groupMatches g q)).map (fun g => g.route)

/-- `force_web_triggers` from `classify_query` (`src/analyst.py`). -/
def force_web_triggers : List (List Char) := csl [
  "dividend", "earnings", "results", "q1", "q2", "q3",
  "q4", "acquisition", "merger", "buyout", "bonus", "split",
  "rights", "target", "upgrade", "downgrade", "ipo", "launch",
  "deal", "news", "latest", "today", "recent", "announce",
  "declared", "buy", "sell", "invest", "should i", "gnpa",
  "nnpa", "npa", "gross npa", "net npa", "slippage", "provision",
  "provisions", "write off", "write-off", "writeoff", "restructured", "stressed assets",
  "asset quality", "segment", "segment wise", "segmentwise", "segment-wise", "breakup",
  "break up", "break-up", "breakdown", "break down", "quarter", "quarterly",
  "qoq", "q-o-q", "yoy", "y-o-y", "guidance", "outlook",
  "forecast", "projection", "cost of fund", "cost of funds", "nim", "net interest margin",
  "casa", "casa ratio", "credit cost", "credit growth", "loan book", "loan growth",
  "deposit growth", "advances", "aum", "assets under management", "disbursement", "collection efficiency",
  "recovery", "why", "reason", "because", "due to", "caused by",
  "impact of", "how come", "explain", "what caused", "what led to", "pressure",
  "margin pressure", "headwind", "tailwind", "concern", "risk", "worried",
  "fear", "red flag", "miss", "missed", "beat", "surprise",
  "disappointing", "weak", "strong", "robust", "poor", "stellar",
  "fallen", "crashed", "tanked", "surged", "spiked", "rallied",
  "dropped", "plunged", "soared", "jumped", "management commentary", "concall",
  "con call", "conference call", "promoter", "promoter holding", "promoter pledge", "pledge",
  "fii", "dii", "fpi", "institutional", "bulk deal", "block deal",
  "insider", "insider trading", "insider buying", "insider selling", "order book", "order win",
  "order inflow", "capex", "capacity", "expansion", "plant", "factory",
  "regulation", "regulatory", "sebi", "rbi circular", "policy change", "rating",
  "credit rating", "crisil", "icra", "care rating", "stake", "stake sale",
  "divestment", "stake buy", "bankruptcy", "nclt", "insolvency", "default",
  "tax", "gst", "tax benefit", "tax impact", "subsidy", "government",
  "policy", "will", "going to", "expected", "expect", "prediction",
  "next quarter", "next year", "fy25", "fy26", "fy27", "fy2025",
  "fy2026", "fy2027", "2025", "2026", "2027", "future",
  "ahead", "coming", "upcoming"]

/-- The greeting set of `classify_query`. -/
def greetingsList : List (List Char) := csl ["hi", "hello", "hey", "thanks",
  "thank you", "good morning", "good evening", "bye", "ok", "okay", "yo", "sup"]

/-- `market_keywords` from `classify_query`. -/
def market_keywords : List (List Char) := csl ["market", "nifty", "sensex",
  "sector", "rbi", "fed", "inflation", "gdp", "economy", "rate", "index", "dow",
  "nasdaq", "s&p", "bull", "bear", "rally", "crash", "correction", "recession",
  "interest rate", "monetary policy", "fiscal"]

/-- Number of words of Python `str.split()` (maximal nonspace runs). -/
def countWordsAux : List Char → Bool → Nat
  | [], _ => 0
  | c :: rest, inw =>
      if isSpaceC c then countWordsAux rest false
      else (if inw then 0 else 1) + countWordsAux rest true

/-- `len(l.split())`. -/
def countWords (l : List Char) : Nat := countWordsAux l false

/-- Model of `classify_query` (`src/analyst.py`): the ten-route classifier.
The if-chain mirrors the source's early-return structure. -/
def classify_query (query : List Char) (portfolio_symbols : List (List Char)) :
    ClassificationResult :=
  let q_lower := trims (lowers query)
  if q_lower ∈ greetingsList ∨ q_lower.length < 4 then
    { route := QueryRoute.CONVERSATIONAL, symbols := [], is_summary := false,
      needs_web := false, intent := cs "greeting" }
  else
    let mentioned_symbols := resolve_stock_from_query query
    let is_crypto := is_crypto_query query
    let is_summary := (csl ["summary", "brief", "short", "quickly", "summarise",
      "summarize"]).any (fun w => substrB q_lower w)
    let needs_web := force_web_triggers.any (fun t => substrB q_lower t)
    let matched0 := matchIntent q_lower
    if matched0 = some QueryRoute.COMPARISON ∧ 2 ≤ mentioned_symbols.length then
      { route := QueryRoute.COMPARISON, symbols := mentioned_symbols,
        is_summary := is_summary, needs_web := needs_web, intent := cs "compare_stocks" }
    else
      let matched1 :=
        if matched0 = some QueryRoute.COMPARISON ∧ mentioned_symbols.length = 1 then
          some QueryRoute.STOCK_PRICE
        else matched0
      if matched1 = some QueryRoute.STOCK_PRICE ∧ mentioned_symbols ≠ [] then
        { route := QueryRoute.STOCK_PRICE, symbols := mentioned_symbols,
          is_summary := is_summary, needs_web := needs_web, intent := cs "price_lookup" }
      else if matched1 = some QueryRoute.RECOMMENDATIONS ∧ mentioned_symbols ≠ [] then
        { route := QueryRoute.RECOMMENDATIONS, symbols := mentioned_symbols,
          is_summary := is_summary, needs_web := true,
          intent := cs "analyst_recommendations" }
      else if matched1 = some QueryRoute.FUNDAMENTALS ∧ mentioned_symbols ≠ [] then
        { route := QueryRoute.FUNDAMENTALS, symbols := mentioned_symbols,
          is_summary := is_summary, needs_web := true,
          intent := cs "fundamental_analysis" }
      else if matched1 = some QueryRoute.TECHNICALS ∧ mentioned_symbols ≠ [] then
        { route := QueryRoute.TECHNICALS, symbols := mentioned_symbols,
          is_summary := is_summary, needs_web := needs_web,
          intent := cs "technical_analysis" }
      else if matched1 = some QueryRoute.NEWS_SEARCH then
        { route := QueryRoute.NEWS_SEARCH, symbols := mentioned_symbols,
          is_summary := is_summary, needs_web := true, intent := cs "news_search",
          is_crypto := is_crypto }
      else
        let matched2 :=
          if matched1 = some QueryRoute.STOCK_PRICE ∧ mentioned_symbols = [] then none
          else matched1
        let matched3 :=
          if matched2 = some QueryRoute.RECOMMENDATIONS ∧ mentioned_symbols = [] then
            some QueryRoute.NEWS_SEARCH
          else matched2
        let matched4 :=
          if matched3 = some QueryRoute.FUNDAMENTALS ∧ mentioned_symbols = [] then none
          else matched3
        let matched5 :=
          if matched4 = some QueryRoute.TECHNICALS ∧ mentioned_symbols = [] then none
          else matched4
        let needs_web2 := needs_web ∨ matched5 = some QueryRoute.NEWS_SEARCH
        let portfolio_syms := portfolio_symbols.map uppers
        let portfolio_mentioned := mentioned_symbols.filter (fun s => s ∈ portfolio_syms)
        let discovery_mentioned := mentioned_symbols.filter (fun s => s ∉ portfolio_syms)
        if matched5 = none ∧ discovery_mentioned = [] ∧ portfolio_mentioned ≠ [] then
          if (csl ["my portfolio", "my stocks", "my holding", "portfolio"]).any
              (fun w => substrB q_lower w) then
            { route := QueryRoute.PORTFOLIO, symbols := portfolio_mentioned,
              is_summary := is_summary, needs_web := needs_web2,
              intent := cs "portfolio_analysis" }
          else
            { route := QueryRoute.PORTFOLIO, symbols := portfolio_mentioned,
              is_summary := is_summary, needs_web := needs_web2,
              intent := cs "portfolio_stock" }
        else if matched5 = none ∧ discovery_mentioned ≠ [] then
          { route := QueryRoute.DISCOVERY, symbols := mentioned_symbols,
            discovery_symbols := discovery_mentioned,
            portfolio_symbols := portfolio_mentioned, is_summary := is_summary,
            needs_web := true, intent := cs "stock_discovery" }
        else if market_keywords.any (fun w => substrB q_lower w) then
          { route := QueryRoute.GENERAL_MARKET, symbols := mentioned_symbols,
            is_summary := is_summary, needs_web := needs_web2,
            intent := cs "market_overview" }
        else if is_crypto ∧ mentioned_symbols = [] then
          { route := QueryRoute.NEWS_SEARCH, symbols := [], is_summary := is_summary,
            needs_web := true, intent := cs "crypto_news", is_crypto := true }
        else if mentioned_symbols ≠ [] then
          { route := QueryRoute.DISCOVERY, symbols := mentioned_symbols,
            discovery_symbols :=
              (if discovery_mentioned ≠ [] then discovery_mentioned
               else mentioned_symbols),
            portfolio_symbols := portfolio_mentioned, is_summary := is_summary,
            needs_web := true, intent := cs "general_stock_query" }
        else if needs_web2 ∨ 3 < countWords q_lower then
          { route := QueryRoute.GENERAL_MARKET, symbols := [],
            is_summary := is_summary, needs_web := needs_web2,
            intent := cs "general_finance" }
        else
          { route := QueryRoute.CONVERSATIONAL, symbols := [], is_summary := false,
            needs_web := false, intent := cs "general_chat" }

/-! ## Ranked documents, reciprocal rank fusion, and hybrid search
(`src/hybrid_search.py`) -/

/-- A ranked document `(score, content, metadata)`; the metadata dict is an
opaque payload `μ`. -/
structure RankedDoc (μ : Type) where
  score : ℚ
  content : List Char
  meta : μ
deriving DecidableEq, Repr

/-- `doc_key` of `reciprocal_rank_fusion`: first 200 characters, stripped. -/
def doc_key (content : List Char) : List Char := trims (content.take 200)

/-- One record of the `doc_scores` dict of `reciprocal_rank_fusion`
(the write-only `sources` bookkeeping list is omitted). -/
structure FusedRec (μ : Type) where
  key : List Char
  rrf_score : ℚ
  content : List Char
  meta : μ
deriving DecidableEq, Repr

/-- Add one list entry's contribution `w / (k + rank)` into the ordered
`doc_scores` table, creating the record on first sight of its key. -/
def addContribution (w : ℚ) (k rank : ℕ) (content : List Char) (meta : μ) :
    List (FusedRec μ) → List (FusedRec μ)
  | [] => [⟨doc_key content, w / ((k : ℚ) + (rank : ℚ)), content, meta⟩]
  | r :: rest =>
      if r.key = doc_key content then
        { r with rrf_score := r.rrf_score + w / ((k : ℚ) + (rank : ℚ)) } :: rest
      else r :: addContribution w k rank content meta rest

/-- Score one input list into the table, ranks starting at `rank`
(the source enumerates from 1). -/
def scorePassAux (w : ℚ) (k : ℕ) : ℕ → List (RankedDoc μ) → List (FusedRec μ) →
    List (FusedRec μ)
  | _, [], acc => acc
  | rank, d :: ds, acc =>
      scorePassAux w k (rank + 1) ds (addContribution w k rank d.content d.meta acc)

/-- Stable insertion into a score-descending list; the semantics of Python's
stable `sorted(..., reverse=True)` / `list.sort(..., reverse=True)`. -/
def insDescBy (f : α → ℚ) (x : α) : List α → List α
  | [] => [x]
  | y :: ys => if f y ≤ f x then x :: y :: ys else y :: insDescBy f x ys

/-- Stable sort, descending by `f`. -/
def sortDescBy (f : α → ℚ) (l : List α) : List α := l.foldr (insDescBy f) []

/-- Model of `reciprocal_rank_fusion` (`src/hybrid_search.py`). -/
def reciprocal_rank_fusion (vector_results bm25_results : List (RankedDoc μ))
    (k : ℕ) (vector_weight bm25_weight : ℚ) : List (RankedDoc μ) :=
  let pass1 := scorePassAux vector_weight k 1 vector_results []
  let pass2 := scorePassAux bm25_weight k 1 bm25_results pass1
  (sortDescBy (fun r => r.rrf_score) pass2).map (fun r => ⟨r.rrf_score, r.content, r.meta⟩)

/-- The final content-based dedup of `HybridSearchEngine.search`: first 200
characters lower-cased, first occurrence kept. -/
def dedupBySig : List (RankedDoc μ) → List (List Char) → List (RankedDoc μ)
  | [], _ => []
  | d :: ds, seen =>
      if lowers (d.content.take 200) ∈ seen then dedupBySig ds seen
      else d :: dedupBySig ds (lowers (d.content.take 200) :: seen)

/-- A raw web-search result (title, body, metadata), as consumed by the
deep-search fallback of `HybridSearchEngine.search`. -/
structure WebRaw (μ : Type) where
  title : List Char
  body : List Char
  meta : μ
deriving DecidableEq, Repr

/-- The fixed synthetic relevance score `0.8` given to web results. -/
def webScore : ℚ := 4 / 5

/-- Model of `HybridSearchEngine.search` (`src/hybrid_search.py`) after the
two index calls: the vector and BM25 result lists and the web results are
inputs (they come from external collaborators); fusion, the
low-local-result web fallback, the re-sort, the content dedup and the
`top_k` cut are modelled faithfully. -/
def hybridSearch (vector_results bm25_results : List (RankedDoc μ))
    (webResults : List (WebRaw μ)) (top_k : ℕ)
    (vector_weight bm25_weight : ℚ) (web_fallback : Bool) : List (RankedDoc μ) :=
  let fused := reciprocal_rank_fusion vector_results bm25_results 60
    vector_weight bm25_weight
  let fused2 :=
    if web_fallback ∧ fused.length < 3 then
      fused ++ webResults.map (fun wr =>
        ⟨webScore, cs "WEB SEARCH RESULT: " ++ wr.title ++ [Char.ofNat 10] ++ wr.body,
          wr.meta⟩)
    else fused
  let sorted := sortDescBy (fun d => d.score) fused2
  (dedupBySig sorted []).take top_k

/-! ## The Gemini retry loop of `GeminiAnalyst.analyze` (`src/analyst.py`) -/

/-- Trace of the retry loop: number of completion calls made, the sleep
durations (in units of `_time.sleep`), the successful response (if any) and
the last exception text. -/
structure RetryTrace where
  attempts : ℕ
  sleeps : List ℕ
  analysis : Option (List Char)
  last_error : Option (List Char)
deriving DecidableEq, Repr

/-- The `for attempt in range(3)` loop: on success break, on exception
record it and sleep `2 ** attempt`. The completion call is the external
collaborator, passed as the oracle `call`. -/
def retryAux (call : ℕ → Except (List Char) (List Char)) :
    ℕ → ℕ → List ℕ → Option (List Char) → RetryTrace
  | 0, attempt, sleeps, lastErr => ⟨attempt, sleeps.reverse, none, lastErr⟩
  | fuel + 1, attempt, sleeps, lastErr =>
      match call attempt with
      | .ok text => ⟨attempt + 1, sleeps.reverse, some text, lastErr⟩
      | .error e => retryAux call fuel (attempt + 1) (2 ^ attempt :: sleeps) (some e)

/-- The loop as written: three attempts starting at attempt 0. -/
def geminiRetry (call : ℕ → Except (List Char) (List Char)) : RetryTrace :=
  retryAux call 3 0 [] none

/-- The firewall-detection substrings of the failure handler. -/
def firewallMarkers : List (List Char) :=
  csl ["<!doctype", "<html", "too many open files", "sophos"]

/-- The final failure message selection of `analyze` (step 7): a structured
message string is returned, never an exception. -/
def analyzeLLMStage (call : ℕ → Except (List Char) (List Char)) :
    RetryTrace × List Char :=
  let tr := geminiRetry call
  (tr,
    match tr.analysis with
    | some text => text
    | none =>
        let errMsg := lowers (tr.last_error.getD [])
        if firewallMarkers.any (fun m => substrB errMsg m) then
          cs "❌ **Analysis failed: Network firewall/proxy is blocking the Gemini API.**\n\n**Fix:** Switch to mobile hotspot or use a VPN."
        else
          cs "❌ Analysis failed: " ++ tr.last_error.getD [])

/-! ## Follow-up detection and the router node (`src/research_agent.py`,
memory from `src/financial_memory.py`) -/

/-- One conversation turn; `symbols` is `metadata.get("symbols", [])`. -/
structure Turn where
  role : List Char
  content : List Char
  symbols : List (List Char)
deriving DecidableEq, Repr

/-- `FinancialMemory.get_last_symbols`: symbols of the most recent
assistant turn. -/
def get_last_symbols (history : List Turn) : List (List Char) :=
  match history.reverse.find? (fun t => t.role = cs "assistant") with
  | some t => t.symbols
  | none => []

/-- `FinancialMemory.get_last_user_query`. -/
def get_last_user_query (history : List Turn) : Option (List Char) :=
  (history.reverse.find? (fun t => t.role = cs "user")).map (fun t => t.content)

/-- `FOLLOW_UP_PATTERNS` from `src/research_agent.py`. -/
def FOLLOW_UP_PATTERNS : List RE := [
  rcat [.anchor, altStrs ["now", "also", "and", "but"], wsP],
  rcat [.anchor, altStrs ["what about", "how about", "tell me about"], wsP],
  rcat [.anchor, ralts [rcat [lits "stress", .lit ' ', lits "test"],
    rcat [lits "re", ropt (.lit '-'), lits "evaluate"], lits "recalculate",
    lits "redo"], wsP],
  rcat [.anchor, altStrs ["assuming", "if", "under", "with"], wsP],
  rcat [.anchor, altStrs ["compare that", "compare it", "versus", "vs"], wsP],
  rcat [.bnd, altStrs ["the same stock", "that stock", "those stocks",
    "same company"], .bnd],
  rcat [.bnd, altStrs ["its", "their"], wsP, ralts [lits "price",
    rcat [lits "fundamental", ropt (.lit 's')],
    rcat [lits "technical", ropt (.lit 's')], lits "pe", lits "revenue",
    lits "earnings", lits "target", lits "recommendation"]],
  rcat [.anchor, altStrs ["why", "how come", "explain"], wsP],
  rcat [.bnd, altStrs ["instead", "rather", "alternatively"], .bnd],
  rcat [.anchor, altStrs ["deeper", "more detail", "elaborate", "expand"], wsS],
  rcat [.anchor, ropt (rcat [lits "and", wsP]), altStrs ["what", "how"], wsP,
    altStrs ["about", "is"], wsP, altStrs ["its", "their", "the"], .bnd],
  rcat [.anchor, altStrs ["also", "now"], wsP, altStrs ["show", "get", "check", "tell"]]]

/-- `is_follow_up` (`src/research_agent.py`): only a follow-up when the
query resolves no symbols of its own. -/
def is_follow_up (query : List Char) : Bool :=
  let q := trims (lowers query)
  if resolve_stock_from_query query ≠ [] then false
  else FOLLOW_UP_PATTERNS.any (fun p => rsearch p q)

/-- `DEEP_TRIGGERS` from `src/research_agent.py` (each entry is used with
`re.search`). -/
def DEEP_TRIGGERS : List RE := [
  lits "deep", lits "detailed", lits "comprehensive", lits "full analysis",
  lits "investment memo", lits "bull and bear", lits "bull vs bear",
  lits "bull case", lits "bear case", lits "scenario analysis",
  lits "sensitivity", lits "stress test", lits "peer comparison",
  lits "peer benchmark", lits "benchmarking", lits "fundamental analysis",
  lits "dcf", lits "valuation model",
  rcat [lits "compare", dotS, lits "fundamental"],
  rcat [lits "generate", dotS, lits "memo"],
  rcat [lits "write", dotS, lits "report"],
  lits "overlooked risks", lits "hidden risks", lits "what should i analyze",
  rcat [lits "based on my", dotS, lits "preference"], lits "past preference"]

/-- `detect_mode` (`src/research_agent.py`); a nonempty `explicit_mode` wins. -/
def detect_mode (query : List Char) (explicit_mode : Option (List Char)) :
    List Char :=
  match explicit_mode with
  | some m =>
      if m ≠ [] then m
      else if DEEP_TRIGGERS.any (fun t => rsearch t (lowers query)) then cs "deep"
      else cs "quick"
  | none =>
      if DEEP_TRIGGERS.any (fun t => rsearch t (lowers query)) then cs "deep"
      else cs "quick"

/-- `', '.join`. -/
def joinSep (sep : List Char) : List (List Char) → List Char
  | [] => []
  | [x] => x
  | x :: xs => x ++ sep ++ joinSep sep xs

/-- `ROUTE_LABEL` from `src/analyst.py`. -/
def ROUTE_LABEL : List (List Char × List Char) := pairsCS [
  ("STOCK_PRICE", "Stock Price"), ("RECOMMENDATIONS", "Analyst Recommendations"),
  ("FUNDAMENTALS", "Fundamental Analysis"), ("COMPARISON", "Stock Comparison"),
  ("TECHNICALS", "Technical Analysis"), ("NEWS_SEARCH", "News & Research"),
  ("PORTFOLIO", "Portfolio Analysis"), ("DISCOVERY", "Stock Discovery"),
  ("GENERAL", "Market Overview"), ("CHAT", "Chat")]

/-- `dict.get(key, default)` over an association list. -/
def assocGetD (k : List Char) (m : List (List Char × List Char))
    (dflt : List Char) : List Char :=
  match m.find? (fun p => p.1 = k) with
  | some p => p.2
  | none => dflt

/-- The router node's output fields (the state keys it returns). -/
structure RouterOutput where
  mode : List Char
  route : List Char
  symbols : List (List Char)
  intent : List Char
  needs_web : Bool
  is_follow_up : Bool
  resolved_query : List Char
  route_label : List Char
deriving DecidableEq, Repr

/-- Model of `router_node` (`src/research_agent.py`): mode detection,
follow-up resolution with symbol carry-forward, classification, the
carried-symbol injection with keyword-based route fixing, and the
memory-suggestion override.  The conversation history and the portfolio
symbol list stand for the memory singleton and `PORTFOLIO`. -/
def router_node (query mode0 : List Char) (history : List Turn)
    (portfolio_stocks : List (List Char)) : RouterOutput :=
  let mode := detect_mode query (if mode0 ≠ cs "auto" then some mode0 else none)
  let follow_up := is_follow_up query
  let last_symbols := get_last_symbols history
  let doCarry := follow_up ∧ last_symbols ≠ [] ∧ resolve_stock_from_query query = []
  let carried_symbols := if doCarry then last_symbols else []
  let resolved_query :=
    if doCarry then
      query ++ cs " (regarding " ++ joinSep (cs ", ") last_symbols ++ cs ")"
    else query
  let portfolio_symbols := portfolio_stocks.map uppers
  let route_info := classify_query resolved_query portfolio_symbols
  let q_lower := lowers query
  let route_info2 :=
    if carried_symbols ≠ [] ∧ route_info.symbols = [] then
      let ri := { route_info with symbols := carried_symbols }
      if ri.route ∈ [QueryRoute.CONVERSATIONAL, cs "GENERAL", cs "GENERAL_MARKET"] then
        let newRoute :=
          if (csl ["fundamental", "pe", "revenue", "margin", "eps", "roe",
              "debt"]).any (fun w => substrB q_lower w) then
            QueryRoute.FUNDAMENTALS
          else if (csl ["technical", "rsi", "macd", "sma", "bollinger"]).any
              (fun w => substrB q_lower w) then
            QueryRoute.TECHNICALS
          else if (csl ["recommend", "target", "analyst", "rating"]).any
              (fun w => substrB q_lower w) then
            QueryRoute.RECOMMENDATIONS
          else if (csl ["compare", "vs", "versus"]).any
              (fun w => substrB q_lower w) then
            QueryRoute.COMPARISON
          else if (csl ["price", "trading", "current", "cost"]).any
              (fun w => substrB q_lower w) then
            QueryRoute.STOCK_PRICE
          else if (csl ["news", "latest", "update"]).any
              (fun w => substrB q_lower w) then
            QueryRoute.NEWS_SEARCH
          else QueryRoute.DISCOVERY
        { ri with route := newRoute, needs_web := true }
      else ri
    else route_info
  let route_info3 :=
    if (csl ["past preference", "my preference", "what should i analyze",
        "analyze next"]).any (fun w => substrB q_lower w) then
      { route_info2 with route := cs "SUGGESTION", intent := cs "memory_suggestion" }
    else route_info2
  { mode := mode
    route := route_info3.route
    symbols := route_info3.symbols
    intent := route_info3.intent
    needs_web := route_info3.needs_web
    is_follow_up := follow_up
    resolved_query := resolved_query
    route_label := assocGetD route_info3.route ROUTE_LABEL route_info3.route }

/-! ## Lemmas about the stable descending sort -/

theorem insDescBy_perm (f : α → ℚ) (x : α) (l : List α) :
    List.Perm (insDescBy f x l) (x :: l) := by
  induction l with
  | nil => exact List.Perm.refl _
  | cons y ys ih =>
      unfold insDescBy
      split
      · exact List.Perm.refl _
      · exact (ih.cons y).trans (List.Perm.swap x y ys)

theorem sortDescBy_perm (f : α → ℚ) (l : List α) : List.Perm (sortDescBy f l) l := by
  induction l with
  | nil => exact List.Perm.refl _
  | cons x xs ih =>
      exact (insDescBy_perm f x (sortDescBy f xs)).trans (ih.cons x)

theorem insDescBy_sorted (f : α → ℚ) (x : α) (l : List α)
    (h : l.Pairwise (fun a b => f b ≤ f a)) :
    (insDescBy f x l).Pairwise (fun a b => f b ≤ f a) := by
  induction l with
  | nil => simp [insDescBy]
  | cons y ys ih =>
      unfold insDescBy
      rcases List.pairwise_cons.mp h with ⟨hy, hys⟩
      split
      · rename_i hle
        refine List.pairwise_cons.mpr ⟨?_, h⟩
        intro b hb
        rcases List.mem_cons.mp hb with rfl | hb
        · exact hle
        · exact le_trans (hy b hb) hle
      · rename_i hgt
        push_neg at hgt
        refine List.pairwise_cons.mpr ⟨?_, ih hys⟩
        intro b hb
        have hb2 := (insDescBy_perm f x ys).mem_iff.mp hb
        rcases List.mem_cons.mp hb2 with rfl | hb2
        · exact le_of_lt hgt
        · exact hy b hb2

theorem sortDescBy_sorted (f : α → ℚ) (l : List α) :
    (sortDescBy f l).Pairwise (fun a b => f b ≤ f a) := by
  induction l with
  | nil => simp [sortDescBy]
  | cons x xs ih => exact insDescBy_sorted f x (sortDescBy f xs) ih

theorem insDescBy_of_ge (f : α → ℚ) (x : α) (l : List α)
    (h : ∀ b ∈ l, f b ≤ f x) : insDescBy f x l = x :: l := by
  cases l with
  | nil => rfl
  | cons y ys =>
      unfold insDescBy
      rw [if_pos (h y (List.mem_cons_self y ys))]

/-- A list already sorted descending is a fixed point of the sort. -/
theorem sortDescBy_of_sorted (f : α → ℚ) (l : List α)
    (h : l.Pairwise (fun a b => f b ≤ f a)) : sortDescBy f l = l := by
  induction l with
  | nil => rfl
  | cons x xs ih =>
      rcases List.pairwise_cons.mp h with ⟨hx, hxs⟩
      show insDescBy f x (sortDescBy f xs) = x :: xs
      rw [ih hxs]
      exact insDescBy_of_ge f x xs hx

theorem insDescBy_cons (f : α → ℚ) (x y : α) (ys : List α) :
    insDescBy f x (y :: ys) =
      if f y ≤ f x then x :: y :: ys else y :: insDescBy f x ys := rfl

theorem filter_insDescBy_neg (f : α → ℚ) (p : α → Bool) (x : α) (l : List α)
    (hpx : p x = false) : (insDescBy f x l).filter p = l.filter p := by
  induction l with
  | nil => simp [insDescBy, hpx]
  | cons y ys ih =>
      rw [insDescBy_cons f x y ys]
      by_cases hle : f y ≤ f x
      · rw [if_pos hle, List.filter_cons_of_neg (by simp [hpx])]
      · rw [if_neg hle]
        cases hpy : p y with
        | true =>
            rw [List.filter_cons_of_pos hpy, List.filter_cons_of_pos hpy, ih]
        | false =>
            rw [List.filter_cons_of_neg (by simp [hpy]),
              List.filter_cons_of_neg (by simp [hpy]), ih]

theorem filter_insDescBy_pos (f : α → ℚ) (p : α → Bool) (x : α) (l : List α)
    (hpx : p x = true) (h : l.Pairwise (fun a b => f b ≤ f a)) :
    (insDescBy f x l).filter p = insDescBy f x (l.filter p) := by
  induction l with
  | nil => simp [insDescBy, hpx]
  | cons y ys ih =>
      rcases List.pairwise_cons.mp h with ⟨hy, hys⟩
      rw [insDescBy_cons f x y ys]
      by_cases hle : f y ≤ f x
      · rw [if_pos hle]
        cases hpy : p y with
        | true =>
            rw [List.filter_cons_of_pos hpx, List.filter_cons_of_pos hpy,
              insDescBy_cons f x y (ys.filter p), if_pos hle]
        | false =>
            rw [List.filter_cons_of_pos hpx, List.filter_cons_of_neg (by simp [hpy]),
              insDescBy_of_ge]
            intro b hb
            exact le_trans (hy b (List.mem_of_mem_filter hb)) hle
      · rw [if_neg hle]
        cases hpy : p y with
        | true =>
            rw [List.filter_cons_of_pos hpy, List.filter_cons_of_pos hpy, ih hys,
              insDescBy_cons f x y (ys.filter p), if_neg hle]
        | false =>
            rw [List.filter_cons_of_neg (by simp [hpy]),
              List.filter_cons_of_neg (by simp [hpy]), ih hys]

/-- Stability: filtering commutes with the stable sort. -/
theorem filter_sortDescBy (f : α → ℚ) (p : α → Bool) (l : List α) :
    (sortDescBy f l).filter p = sortDescBy f (l.filter p) := by
  induction l with
  | nil => rfl
  | cons x xs ih =>
      show (insDescBy f x (sortDescBy f xs)).filter p = sortDescBy f ((x :: xs).filter p)
      cases hpx : p x with
      | true =>
          rw [filter_insDescBy_pos f p x _ hpx (sortDescBy_sorted f xs), ih,
            List.filter_cons_of_pos hpx]
          rfl
      | false =>
          rw [filter_insDescBy_neg f p x _ hpx, ih,
            List.filter_cons_of_neg (by simp [hpx])]

/-! ## Lemmas about reciprocal rank fusion -/

/-- Specification function: the score stored for `key` in the table. -/
def keyScore (key : List Char) (acc : List (FusedRec μ)) : ℚ :=
  match acc.find? (fun r => r.key = key) with
  | some r => r.rrf_score
  | none => 0

/-- Is `key` present in the table? -/
def hasKey (key : List Char) (acc : List (FusedRec μ)) : Bool :=
  acc.any (fun r => r.key = key)

/-- Specification function: `Σ 1 / (k + rank)` over the 1-based ranks at
which a document with the given dedup key occurs in a list (`rank` is the
rank of the first element). -/
def rankSumAux (k : ℕ) (key : List Char) : ℕ → List (RankedDoc μ) → ℚ
  | _, [] => 0
  | rank, d :: ds =>
      (if doc_key d.content = key then 1 / ((k : ℚ) + (rank : ℚ)) else 0) +
        rankSumAux k key (rank + 1) ds

/-- `rankSum` with ranks from 1, as in the source's `enumerate(…, 1)`. -/
def rankSum (k : ℕ) (key : List Char) (docs : List (RankedDoc μ)) : ℚ :=
  rankSumAux k key 1 docs

theorem addContribution_nil (w : ℚ) (k rank : ℕ) (c : List Char) (m : μ) :
    addContribution w k rank c m ([] : List (FusedRec μ)) =
      [⟨doc_key c, w / ((k : ℚ) + (rank : ℚ)), c, m⟩] := rfl

theorem addContribution_cons_hit (w : ℚ) (k rank : ℕ) (c : List Char) (m : μ)
    {r : FusedRec μ} (rest : List (FusedRec μ)) (hr : r.key = doc_key c) :
    addContribution w k rank c m (r :: rest) =
      { r with rrf_score := r.rrf_score + w / ((k : ℚ) + (rank : ℚ)) } :: rest := by
  unfold addContribution
  rw [if_pos hr]

theorem addContribution_cons_miss (w : ℚ) (k rank : ℕ) (c : List Char) (m : μ)
    {r : FusedRec μ} (rest : List (FusedRec μ)) (hr : ¬ r.key = doc_key c) :
    addContribution w k rank c m (r :: rest) =
      r :: addContribution w k rank c m rest := by
  unfold addContribution
  rw [if_neg hr]
  cases rest <;> rfl

theorem keyScore_addContribution (w : ℚ) (k rank : ℕ) (c : List Char) (m : μ)
    (key : List Char) (acc : List (FusedRec μ)) :
    keyScore key (addContribution w k rank c m acc) =
      keyScore key acc +
        (if doc_key c = key then w / ((k : ℚ) + (rank : ℚ)) else 0) := by
  induction acc with
  | nil =>
      rw [addContribution_nil]
      by_cases hk : doc_key c = key
      · simp [keyScore, hk]
      · simp [keyScore, hk]
  | cons r rest ih =>
      by_cases hr : r.key = doc_key c
      · rw [addContribution_cons_hit w k rank c m rest hr]
        by_cases hk : r.key = key
        · have hck : doc_key c = key := by rw [← hr]; exact hk
          unfold keyScore
          rw [List.find?_cons_of_pos _ (by simpa using hk),
            List.find?_cons_of_pos _ (by simpa using hk), if_pos hck]
        · have hck : ¬ doc_key c = key := by rw [← hr]; exact hk
          unfold keyScore
          rw [List.find?_cons_of_neg _ (by simpa using hk),
            List.find?_cons_of_neg _ (by simpa using hk), if_neg hck]
          simp
      · rw [addContribution_cons_miss w k rank c m rest hr]
        by_cases hk : r.key = key
        · have hck : ¬ doc_key c = key := by
            intro h
            exact hr (hk.trans h.symm)
          unfold keyScore
          rw [List.find?_cons_of_pos _ (by simpa using hk),
            List.find?_cons_of_pos _ (by simpa using hk), if_neg hck]
          simp
        · unfold keyScore
          rw [List.find?_cons_of_neg _ (by simpa using hk),
            List.find?_cons_of_neg _ (by simpa using hk)]
          exact ih

theorem hasKey_addContribution (w : ℚ) (k rank : ℕ) (c : List Char) (m : μ)
    (key : List Char) (acc : List (FusedRec μ)) :
    hasKey key (addContribution w k rank c m acc) =
      (hasKey key acc || decide (doc_key c = key)) := by
  induction acc with
  | nil =>
      rw [addContribution_nil]
      simp [hasKey]
  | cons r rest ih =>
      by_cases hr : r.key = doc_key c
      · rw [addContribution_cons_hit w k rank c m rest hr]
        by_cases hk : doc_key c = key
        · simp [hasKey, hr, hk]
        · simp [hasKey, hr, hk]
      · rw [addContribution_cons_miss w k rank c m rest hr]
        simp only [hasKey, List.any_cons] at ih ⊢
        rw [ih]
        cases h1 : decide (r.key = key) <;> simp

theorem rankSumAux_cons (k : ℕ) (key : List Char) (rank : ℕ) (d : RankedDoc μ)
    (ds : List (RankedDoc μ)) :
    rankSumAux k key rank (d :: ds) =
      (if doc_key d.content = key then 1 / ((k : ℚ) + (rank : ℚ)) else 0) +
        rankSumAux k key (rank + 1) ds := rfl

theorem keyScore_scorePassAux (w : ℚ) (k : ℕ) (key : List Char) :
    ∀ (rank : ℕ) (docs : List (RankedDoc μ)) (acc : List (FusedRec μ)),
      keyScore key (scorePassAux w k rank docs acc) =
        keyScore key acc + w * rankSumAux k key rank docs := by
  intro rank docs
  induction docs generalizing rank with
  | nil => intro acc; simp [scorePassAux, rankSumAux]
  | cons d ds ih =>
      intro acc
      show keyScore key (scorePassAux w k (rank + 1) ds
          (addContribution w k rank d.content d.meta acc)) = _
      rw [ih (rank + 1), keyScore_addContribution, rankSumAux_cons]
      by_cases hk : doc_key d.content = key
      · rw [if_pos hk, if_pos hk]
        rw [mul_add, mul_one_div]
        ring
      · rw [if_neg hk, if_neg hk]
        rw [mul_add]
        ring

theorem hasKey_scorePassAux (w : ℚ) (k : ℕ) (key : List Char) :
    ∀ (rank : ℕ) (docs : List (RankedDoc μ)) (acc : List (FusedRec μ)),
      hasKey key (scorePassAux w k rank docs acc) =
        (hasKey key acc || docs.any (fun d => doc_key d.content = key)) := by
  intro rank docs
  induction docs generalizing rank with
  | nil => intro acc; simp [scorePassAux]
  | cons d ds ih =>
      intro acc
      show hasKey key (scorePassAux w k (rank + 1) ds
          (addContribution w k rank d.content d.meta acc)) = _
      rw [ih (rank + 1), hasKey_addContribution]
      simp [List.any_cons, Bool.or_assoc]

theorem key_eq_dockey_addContribution (w : ℚ) (k rank : ℕ) (c : List Char) (m : μ)
    (acc : List (FusedRec μ)) (h : ∀ r ∈ acc, r.key = doc_key r.content) :
    ∀ r ∈ addContribution w k rank c m acc, r.key = doc_key r.content := by
  induction acc with
  | nil =>
      rw [addContribution_nil]
      intro r hr
      simp at hr
      simp [hr]
  | cons r0 rest ih =>
      by_cases hr0 : r0.key = doc_key c
      · rw [addContribution_cons_hit w k rank c m rest hr0]
        intro r hr
        rcases List.mem_cons.mp hr with rfl | hr
        · exact h r0 (List.mem_cons_self r0 rest)
        · exact h r (List.mem_cons_of_mem r0 hr)
      · rw [addContribution_cons_miss w k rank c m rest hr0]
        intro r hr
        rcases List.mem_cons.mp hr with rfl | hr
        · exact h r (List.mem_cons_self r rest)
        · exact ih (fun r2 hr2 => h r2 (List.mem_cons_of_mem r0 hr2)) r hr

theorem key_eq_dockey_scorePassAux (w : ℚ) (k : ℕ) :
    ∀ (rank : ℕ) (docs : List (RankedDoc μ)) (acc : List (FusedRec μ)),
      (∀ r ∈ acc, r.key = doc_key r.content) →
      ∀ r ∈ scorePassAux w k rank docs acc, r.key = doc_key r.content := by
  intro rank docs
  induction docs generalizing rank with
  | nil => intro acc h; exact h
  | cons d ds ih =>
      intro acc h
      exact ih (rank + 1) _ (key_eq_dockey_addContribution w k rank d.content d.meta acc h)

theorem keys_addContribution_of_hasKey (w : ℚ) (k rank : ℕ) (c : List Char) (m : μ)
    (acc : List (FusedRec μ)) (h : hasKey (doc_key c) acc = true) :
    (addContribution w k rank c m acc).map (fun r => r.key) =
      acc.map (fun r => r.key) := by
  induction acc with
  | nil => simp [hasKey] at h
  | cons r0 rest ih =>
      by_cases hr0 : r0.key = doc_key c
      · rw [addContribution_cons_hit w k rank c m rest hr0]
        simp
      · rw [addContribution_cons_miss w k rank c m rest hr0]
        simp only [List.map_cons, List.cons.injEq, true_and]
        apply ih
        simp only [hasKey, List.any_cons] at h
        rcases Bool.or_eq_true_iff.mp h with h | h
        · exact absurd (of_decide_eq_true h) (fun h2 => hr0 h2)
        · exact h

theorem addContribution_of_not_hasKey (w : ℚ) (k rank : ℕ) (c : List Char) (m : μ)
    (acc : List (FusedRec μ)) (h : hasKey (doc_key c) acc = false) :
    addContribution w k rank c m acc =
      acc ++ [⟨doc_key c, w / ((k : ℚ) + (rank : ℚ)), c, m⟩] := by
  induction acc with
  | nil => rw [addContribution_nil]; rfl
  | cons r0 rest ih =>
      simp only [hasKey, List.any_cons, Bool.or_eq_false_iff] at h
      obtain ⟨h1, h2⟩ := h
      have hr0 : ¬ r0.key = doc_key c := by simpa using h1
      rw [addContribution_cons_miss w k rank c m rest hr0]
      rw [ih h2]
      rfl

theorem keys_nodup_addContribution (w : ℚ) (k rank : ℕ) (c : List Char) (m : μ)
    (acc : List (FusedRec μ)) (h : (acc.map (fun r => r.key)).Nodup) :
    ((addContribution w k rank c m acc).map (fun r => r.key)).Nodup := by
  cases hk : hasKey (doc_key c) acc with
  | true => rw [keys_addContribution_of_hasKey w k rank c m acc hk]; exact h
  | false =>
      rw [addContribution_of_not_hasKey w k rank c m acc hk]
      rw [List.map_append]
      simp only [List.map_cons, List.map_nil]
      rw [List.nodup_append]
      refine ⟨h, List.nodup_singleton _, ?_⟩
      intro a ha
      simp only [List.mem_singleton]
      intro heq
      subst heq
      simp only [hasKey, List.any_eq_false] at hk
      obtain ⟨r2, hr2, hr2e⟩ := List.mem_map.mp ha
      have := hk r2 hr2
      simp [hr2e] at this

theorem keys_nodup_scorePassAux (w : ℚ) (k : ℕ) :
    ∀ (rank : ℕ) (docs : List (RankedDoc μ)) (acc : List (FusedRec μ)),
      (acc.map (fun r => r.key)).Nodup →
      ((scorePassAux w k rank docs acc).map (fun r => r.key)).Nodup := by
  intro rank docs
  induction docs generalizing rank with
  | nil => intro acc h; exact h
  | cons d ds ih =>
      intro acc h
      exact ih (rank + 1) _ (keys_nodup_addContribution w k rank d.content d.meta acc h)

/-- For a table with distinct keys, the stored score of a member record is
recovered by `keyScore` at its key. -/
theorem keyScore_of_mem {acc : List (FusedRec μ)} {r : FusedRec μ}
    (hmem : r ∈ acc) (hnd : (acc.map (fun x => x.key)).Nodup) :
    keyScore r.key acc = r.rrf_score := by
  induction acc with
  | nil => simp at hmem
  | cons r0 rest ih =>
      rcases List.mem_cons.mp hmem with rfl | hmem2
      · unfold keyScore
        rw [List.find?_cons_of_pos _ (by simp)]
      · simp only [List.map_cons, List.nodup_cons] at hnd
        obtain ⟨hn1, hn2⟩ := hnd
        have hne : ¬ r0.key = r.key := by
          intro h
          exact hn1 (h ▸ List.mem_map.mpr ⟨r, hmem2, rfl⟩)
        unfold keyScore
        rw [List.find?_cons_of_neg _ (by simpa using hne)]
        exact ih hmem2 hn2

/-- The table produced by scoring a list of documents with fresh, pairwise
distinct keys: one record per document, score `w / (k + rank)`. -/
def enumRecs (w : ℚ) (k : ℕ) : ℕ → List (RankedDoc μ) → List (FusedRec μ)
  | _, [] => []
  | rank, d :: ds =>
      ⟨doc_key d.content, w / ((k : ℚ) + (rank : ℚ)), d.content, d.meta⟩ ::
        enumRecs w k (rank + 1) ds

theorem enumRecs_keys (w : ℚ) (k : ℕ) :
    ∀ (rank : ℕ) (docs : List (RankedDoc μ)),
      (enumRecs w k rank docs).map (fun r => r.key) =
        docs.map (fun d => doc_key d.content) := by
  intro rank docs
  induction docs generalizing rank with
  | nil => rfl
  | cons d ds ih => simp [enumRecs, ih (rank + 1)]

theorem enumRecs_contents (w : ℚ) (k : ℕ) :
    ∀ (rank : ℕ) (docs : List (RankedDoc μ)),
      (enumRecs w k rank docs).map (fun r => r.content) =
        docs.map (fun d => d.content) := by
  intro rank docs
  induction docs generalizing rank with
  | nil => rfl
  | cons d ds ih => simp [enumRecs, ih (rank + 1)]

/-- Scoring documents whose keys are fresh and pairwise distinct appends
their enumeration records to the table. -/
theorem scorePassAux_append (w : ℚ) (k : ℕ) :
    ∀ (rank : ℕ) (docs : List (RankedDoc μ)) (acc : List (FusedRec μ)),
      (∀ d ∈ docs, hasKey (doc_key d.content) acc = false) →
      (docs.map (fun d => doc_key d.content)).Nodup →
      scorePassAux w k rank docs acc = acc ++ enumRecs w k rank docs := by
  intro rank docs
  induction docs generalizing rank with
  | nil => intro acc _ _; simp [scorePassAux, enumRecs]
  | cons d ds ih =>
      intro acc hfresh hnd
      show scorePassAux w k (rank + 1) ds
          (addContribution w k rank d.content d.meta acc) = _
      rw [addContribution_of_not_hasKey w k rank d.content d.meta acc
        (hfresh d (List.mem_cons_self d ds))]
      simp only [List.map_cons, List.nodup_cons] at hnd
      obtain ⟨hd1, hd2⟩ := hnd
      rw [ih (rank + 1) _ ?_ hd2]
      · simp [enumRecs]
      · intro d2 hd2mem
        simp only [hasKey, List.any_append, Bool.or_eq_false_iff]
        constructor
        · exact hfresh d2 (List.mem_cons_of_mem d hd2mem)
        · simp only [List.any_cons, List.any_nil, Bool.or_false]
          simp only [decide_eq_false_iff_not]
          intro heq
          exact hd1 (heq ▸ List.mem_map.mpr ⟨d2, hd2mem, rfl⟩)

/-- Scoring documents whose keys avoid the head record leaves the head
record in place. -/
theorem scorePassAux_skip (w : ℚ) (k : ℕ) :
    ∀ (rank : ℕ) (docs : List (RankedDoc μ)) (r : FusedRec μ)
      (acc : List (FusedRec μ)),
      (∀ d ∈ docs, ¬ doc_key d.content = r.key) →
      scorePassAux w k rank docs (r :: acc) = r :: scorePassAux w k rank docs acc := by
  intro rank docs
  induction docs generalizing rank with
  | nil => intro r acc _; rfl
  | cons d ds ih =>
      intro r acc hav
      show scorePassAux w k (rank + 1) ds
          (addContribution w k rank d.content d.meta (r :: acc)) = _
      rw [addContribution_cons_miss w k rank d.content d.meta acc
        (fun h => hav d (List.mem_cons_self d ds) h.symm)]
      exact ih (rank + 1) r _ (fun d2 hd2 => hav d2 (List.mem_cons_of_mem d hd2))

/-- Scoring a list over the table produced by scoring the same list merges
the weights (for pairwise distinct keys). -/
theorem scorePassAux_self (w1 w2 : ℚ) (k : ℕ) :
    ∀ (rank : ℕ) (docs : List (RankedDoc μ)),
      (docs.map (fun d => doc_key d.content)).Nodup →
      scorePassAux w2 k rank docs (enumRecs w1 k rank docs) =
        enumRecs (w1 + w2) k rank docs := by
  intro rank docs
  induction docs generalizing rank with
  | nil => intro _; rfl
  | cons d ds ih =>
      intro hnd
      simp only [List.map_cons, List.nodup_cons] at hnd
      obtain ⟨hd1, hd2⟩ := hnd
      show scorePassAux w2 k (rank + 1) ds
          (addContribution w2 k rank d.content d.meta _) = _
      rw [show addContribution w2 k rank d.content d.meta
            (enumRecs w1 k rank (d :: ds)) =
          (⟨doc_key d.content, w1 / ((k : ℚ) + (rank : ℚ)) + w2 / ((k : ℚ) + (rank : ℚ)),
            d.content, d.meta⟩ : FusedRec μ) :: enumRecs w1 k (rank + 1) ds from by
        show addContribution w2 k rank d.content d.meta (_ :: _) = _
        rw [addContribution_cons_hit w2 k rank d.content d.meta _ rfl]]
      rw [scorePassAux_skip w2 k (rank + 1) ds _ _ ?_]
      · rw [ih (rank + 1) hd2]
        show (⟨doc_key d.content, _, d.content, d.meta⟩ : FusedRec μ) :: _ = _ :: _
        rw [div_add_div_same]
      · intro d2 hd2mem heq
        simp only at heq
        exact hd1 (heq ▸ List.mem_map.mpr ⟨d2, hd2mem, rfl⟩)

/-- The record-to-document projection of the fusion's return. -/
def toDoc (r : FusedRec μ) : RankedDoc μ := ⟨r.rrf_score, r.content, r.meta⟩

theorem reciprocal_rank_fusion_eq (vr br : List (RankedDoc μ)) (k : ℕ)
    (vw bw : ℚ) :
    reciprocal_rank_fusion vr br k vw bw =
      (sortDescBy (fun r => r.rrf_score)
        (scorePassAux bw k 1 br (scorePassAux vw k 1 vr []))).map toDoc := rfl

/-- Every output entry of the fusion carries the cumulative score
`vw · Σ 1/(k+rank) + bw · Σ 1/(k+rank)` over the ranks of its dedup key. -/
theorem rrf_score_eq (vr br : List (RankedDoc μ)) (k : ℕ) (vw bw : ℚ)
    {e : RankedDoc μ} (he : e ∈ reciprocal_rank_fusion vr br k vw bw) :
    e.score = vw * rankSum k (doc_key e.content) vr +
      bw * rankSum k (doc_key e.content) br := by
  rw [reciprocal_rank_fusion_eq] at he
  obtain ⟨r, hr, rfl⟩ := List.mem_map.mp he
  have hr2 : r ∈ scorePassAux bw k 1 br (scorePassAux vw k 1 vr []) :=
    (sortDescBy_perm _ _).subset hr
  have hnd : ((scorePassAux bw k 1 br (scorePassAux vw k 1 vr [])).map
      (fun x => x.key)).Nodup := by
    apply keys_nodup_scorePassAux
    apply keys_nodup_scorePassAux
    simp
  have hkey : r.key = doc_key r.content := by
    refine key_eq_dockey_scorePassAux bw k 1 br _ ?_ r hr2
    intro r2 hr2b
    exact key_eq_dockey_scorePassAux vw k 1 vr [] (by simp) r2 hr2b
  have hscore := keyScore_of_mem hr2 hnd
  rw [keyScore_scorePassAux, keyScore_scorePassAux] at hscore
  show r.rrf_score = _
  rw [← hscore, hkey]
  show keyScore _ ([] : List (FusedRec μ)) + _ + _ = _
  rw [show keyScore (doc_key r.content) ([] : List (FusedRec μ)) = 0 from rfl]
  rw [zero_add]
  rfl

/-- The fused output never contains two entries with the same dedup key. -/
theorem rrf_keys_nodup (vr br : List (RankedDoc μ)) (k : ℕ) (vw bw : ℚ) :
    ((reciprocal_rank_fusion vr br k vw bw).map
      (fun e => doc_key e.content)).Nodup := by
  rw [reciprocal_rank_fusion_eq]
  have hnd : ((scorePassAux bw k 1 br (scorePassAux vw k 1 vr [])).map
      (fun x => x.key)).Nodup := by
    apply keys_nodup_scorePassAux
    apply keys_nodup_scorePassAux
    simp
  have hperm := (sortDescBy_perm (fun r : FusedRec μ => r.rrf_score)
    (scorePassAux bw k 1 br (scorePassAux vw k 1 vr []))).map (fun x => x.key)
  have hnd2 := hperm.nodup_iff.mpr hnd
  have heq : ((sortDescBy (fun r : FusedRec μ => r.rrf_score)
        (scorePassAux bw k 1 br (scorePassAux vw k 1 vr []))).map toDoc).map
        (fun e => doc_key e.content) =
      (sortDescBy (fun r : FusedRec μ => r.rrf_score)
        (scorePassAux bw k 1 br (scorePassAux vw k 1 vr []))).map (fun x => x.key) := by
    rw [List.map_map]
    apply List.map_congr_left
    intro r hr
    have hr2 : r ∈ scorePassAux bw k 1 br (scorePassAux vw k 1 vr []) :=
      (sortDescBy_perm _ _).subset hr
    have hkey : r.key = doc_key r.content := by
      refine key_eq_dockey_scorePassAux bw k 1 br _ ?_ r hr2
      intro r2 hr2b
      exact key_eq_dockey_scorePassAux vw k 1 vr [] (by simp) r2 hr2b
    simp [toDoc, hkey]
  rw [heq]
  exact hnd2

/-- Every input document is represented in the fused output by exactly the
entry holding its dedup key. -/
theorem rrf_mem_of_input (vr br : List (RankedDoc μ)) (k : ℕ) (vw bw : ℚ)
    {d : RankedDoc μ} (hd : d ∈ vr ∨ d ∈ br) :
    ∃ e ∈ reciprocal_rank_fusion vr br k vw bw,
      doc_key e.content = doc_key d.content := by
  have hhk : hasKey (doc_key d.content)
      (scorePassAux bw k 1 br (scorePassAux vw k 1 vr [])) = true := by
    rw [hasKey_scorePassAux, hasKey_scorePassAux]
    rcases hd with hd | hd
    · have : vr.any (fun d2 => doc_key d2.content = doc_key d.content) = true :=
        List.any_eq_true.mpr ⟨d, hd, by simp⟩
      simp [this]
    · have : br.any (fun d2 => doc_key d2.content = doc_key d.content) = true :=
        List.any_eq_true.mpr ⟨d, hd, by simp⟩
      simp [this]
  simp only [hasKey, List.any_eq_true] at hhk
  obtain ⟨r, hr, hre⟩ := hhk
  have hre2 : r.key = doc_key d.content := of_decide_eq_true hre
  have hr3 : r ∈ sortDescBy (fun x : FusedRec μ => x.rrf_score)
      (scorePassAux bw k 1 br (scorePassAux vw k 1 vr [])) :=
    ((sortDescBy_perm _ _).symm).subset hr
  refine ⟨toDoc r, ?_, ?_⟩
  · rw [reciprocal_rank_fusion_eq]
    exact List.mem_map.mpr ⟨r, hr3, rfl⟩
  · have hkey : r.key = doc_key r.content := by
      refine key_eq_dockey_scorePassAux bw k 1 br _ ?_ r hr
      intro r2 hr2b
      exact key_eq_dockey_scorePassAux vw k 1 vr [] (by simp) r2 hr2b
    show doc_key r.content = _
    rw [← hkey, hre2]

/-- Mapping a sort-key-preserving function commutes with the stable sort. -/
theorem map_sortDescBy (f1 : α → ℚ) (f2 : β → ℚ) (g : α → β)
    (hfg : ∀ x, f2 (g x) = f1 x) (l : List α) :
    (sortDescBy f1 l).map g = sortDescBy f2 (l.map g) := by
  have hins : ∀ (x : α) (m : List α),
      (insDescBy f1 x m).map g = insDescBy f2 (g x) (m.map g) := by
    intro x m
    induction m with
    | nil => rfl
    | cons y ys ih =>
        rw [insDescBy_cons f1 x y ys, List.map_cons,
          insDescBy_cons f2 (g x) (g y) (ys.map g), hfg x, hfg y]
        split
        · simp
        · rw [← ih]
          simp
  induction l with
  | nil => rfl
  | cons x xs ih =>
      show (insDescBy f1 x (sortDescBy f1 xs)).map g = _
      rw [hins, ih]
      rfl

theorem enumRecs_score_le (w : ℚ) (k : ℕ) (hw : 0 ≤ w) :
    ∀ (rank : ℕ), 1 ≤ rank → ∀ (docs : List (RankedDoc μ)),
      ∀ r ∈ enumRecs w k rank docs, r.rrf_score ≤ w / ((k : ℚ) + (rank : ℚ)) := by
  intro rank h1 docs
  induction docs generalizing rank with
  | nil => intro r hr; simp [enumRecs] at hr
  | cons d ds ih =>
      intro r hr
      rcases List.mem_cons.mp hr with rfl | hr2
      · exact le_refl _
      · have hle := ih (rank + 1) (by omega) r hr2
        refine le_trans hle ?_
        apply div_le_div_of_nonneg_left hw
        · positivity
        · push_cast
          linarith

theorem enumRecs_sorted (w : ℚ) (k : ℕ) (hw : 0 ≤ w) :
    ∀ (rank : ℕ), 1 ≤ rank → ∀ (docs : List (RankedDoc μ)),
      (enumRecs w k rank docs).Pairwise
        (fun a b => b.rrf_score ≤ a.rrf_score) := by
  intro rank h1 docs
  induction docs generalizing rank with
  | nil => simp [enumRecs]
  | cons d ds ih =>
      refine List.pairwise_cons.mpr ⟨?_, ih (rank + 1) (by omega)⟩
      intro r hr
      have hle := enumRecs_score_le w k hw (rank + 1) (by omega) ds r hr
      show r.rrf_score ≤ w / ((k : ℚ) + (rank : ℚ))
      refine le_trans hle ?_
      apply div_le_div_of_nonneg_left hw
      · positivity
      · push_cast
        linarith

/-- Fused documents of a single source list: each document rescored to
`w / (k + rank)` at its 1-based rank. -/
def fusedDocs (w : ℚ) (k rank : ℕ) (docs : List (RankedDoc μ)) : List (RankedDoc μ) :=
  (enumRecs w k rank docs).map toDoc

theorem fusedDocs_contents (w : ℚ) (k rank : ℕ) (docs : List (RankedDoc μ)) :
    (fusedDocs w k rank docs).map (fun d => d.content) =
      docs.map (fun d => d.content) := by
  unfold fusedDocs
  rw [List.map_map]
  exact enumRecs_contents w k rank docs

/-- Fusing a list of pairwise-distinct-key documents with itself yields the
enumeration with merged weight, in the original order (non-negative weight). -/
theorem rrf_self_eq (A : List (RankedDoc μ)) (w : ℚ) (hw : 0 ≤ w)
    (hnd : (A.map (fun d => doc_key d.content)).Nodup) :
    reciprocal_rank_fusion A A 60 w w = fusedDocs (w + w) 60 1 A := by
  rw [reciprocal_rank_fusion_eq]
  have h1 : scorePassAux w 60 1 A ([] : List (FusedRec μ)) = enumRecs w 60 1 A := by
    rw [scorePassAux_append w 60 1 A [] (by intro d _; rfl) hnd]
    rfl
  rw [h1, scorePassAux_self w w 60 1 A hnd]
  rw [sortDescBy_of_sorted _ _ (enumRecs_sorted (w + w) 60 (by linarith) 1 (by omega) A)]
  rfl

/-- `hasKey` is key membership. -/
theorem hasKey_eq_false_iff (key : List Char) (acc : List (FusedRec μ)) :
    hasKey key acc = false ↔ key ∉ acc.map (fun r => r.key) := by
  simp only [hasKey, List.any_eq_false, List.mem_map]
  constructor
  · rintro h ⟨r, hr, rfl⟩
    exact (h r hr) (by simp)
  · intro h r hr
    simp only [decide_eq_true_eq]
    intro heq
    exact h ⟨r, hr, heq⟩

/-- Fusing two lists with no shared dedup keys produces the score-sorted
concatenation of the two rescored lists. -/
theorem rrf_disjoint_eq (A B : List (RankedDoc μ)) (vw bw : ℚ)
    (hA : (A.map (fun d => doc_key d.content)).Nodup)
    (hB : (B.map (fun d => doc_key d.content)).Nodup)
    (hdisj : ∀ ka ∈ A.map (fun d => doc_key d.content),
      ka ∉ B.map (fun d => doc_key d.content)) :
    reciprocal_rank_fusion A B 60 vw bw =
      sortDescBy (fun d => d.score) (fusedDocs vw 60 1 A ++ fusedDocs bw 60 1 B) := by
  rw [reciprocal_rank_fusion_eq]
  have h1 : scorePassAux vw 60 1 A ([] : List (FusedRec μ)) = enumRecs vw 60 1 A := by
    rw [scorePassAux_append vw 60 1 A [] (by intro d _; rfl) hA]
    rfl
  have h2 : scorePassAux bw 60 1 B (enumRecs vw 60 1 A) =
      enumRecs vw 60 1 A ++ enumRecs bw 60 1 B := by
    apply scorePassAux_append bw 60 1 B _ ?_ hB
    intro d hd
    rw [hasKey_eq_false_iff]
    rw [enumRecs_keys]
    intro hmem
    exact hdisj (doc_key d.content) hmem (List.mem_map.mpr ⟨d, hd, rfl⟩)
  rw [h1, h2]
  rw [map_sortDescBy (fun r : FusedRec μ => r.rrf_score) (fun d : RankedDoc μ => d.score)
    toDoc (fun x => rfl)]
  rw [List.map_append]
  rfl

theorem countP_le_one_of_nodup_map {α β : Type} [DecidableEq β] (f : α → β)
    (l : List α) (h : (l.map f).Nodup) (b : β) :
    l.countP (fun x => decide (f x = b)) ≤ 1 := by
  induction l with
  | nil => simp
  | cons x xs ih =>
      simp only [List.map_cons, List.nodup_cons] at h
      obtain ⟨h1, h2⟩ := h
      rw [List.countP_cons]
      by_cases hfx : f x = b
      · have hz : xs.countP (fun y => decide (f y = b)) = 0 := by
          rw [List.countP_eq_zero]
          intro y hy
          simp only [decide_eq_true_eq]
          intro hfy
          exact h1 (List.mem_map.mpr ⟨y, hy, hfy.trans hfx.symm⟩)
        simp [hz, hfx]
      · have hz : (decide (f x = b) = true) = False := by simp [hfx]
        simp only [hz, if_false]
        have := ih h2
        omega

theorem rankSumAux_nonneg (k : ℕ) (key : List Char) :
    ∀ (rank : ℕ), 1 ≤ rank → ∀ (docs : List (RankedDoc μ)),
      0 ≤ rankSumAux k key rank docs := by
  intro rank h1 docs
  induction docs generalizing rank with
  | nil => simp [rankSumAux]
  | cons d ds ih =>
      rw [rankSumAux_cons]
      have h2 := ih (rank + 1) (by omega)
      have h3 : (0 : ℚ) ≤ (if doc_key d.content = key then
          1 / ((k : ℚ) + (rank : ℚ)) else 0) := by
        split
        · positivity
        · exact le_refl 0
      linarith

theorem rankSumAux_eq_zero (k : ℕ) (key : List Char) :
    ∀ (rank : ℕ) (docs : List (RankedDoc μ)),
      docs.countP (fun d => decide (doc_key d.content = key)) = 0 →
      rankSumAux k key rank docs = 0 := by
  intro rank docs
  induction docs generalizing rank with
  | nil => intro _; rfl
  | cons d ds ih =>
      intro h
      rw [List.countP_cons] at h
      rw [rankSumAux_cons]
      by_cases hd : doc_key d.content = key
      · simp [hd] at h
      · rw [if_neg hd, ih (rank + 1) (by omega)]
        ring

theorem rankSumAux_le (k : ℕ) (key : List Char) :
    ∀ (rank : ℕ), 1 ≤ rank → ∀ (docs : List (RankedDoc μ)),
      docs.countP (fun d => decide (doc_key d.content = key)) ≤ 1 →
      rankSumAux k key rank docs ≤ 1 / ((k : ℚ) + (rank : ℚ)) := by
  intro rank h1 docs
  induction docs generalizing rank with
  | nil =>
      intro _
      rw [show rankSumAux k key rank ([] : List (RankedDoc μ)) = 0 from rfl]
      positivity
  | cons d ds ih =>
      intro hcount
      rw [List.countP_cons] at hcount
      rw [rankSumAux_cons]
      by_cases hd : doc_key d.content = key
      · rw [if_pos hd]
        have hz : ds.countP (fun d2 => decide (doc_key d2.content = key)) = 0 := by
          rw [if_pos (show decide (doc_key d.content = key) = true by simp [hd])] at hcount
          omega
        rw [rankSumAux_eq_zero k key (rank + 1) ds hz]
        ring_nf
        exact le_refl _
      · rw [if_neg hd, zero_add]
        have h2 : ds.countP (fun d2 => decide (doc_key d2.content = key)) ≤ 1 := by
          simp only [hd, decide_eq_true_eq, if_false] at hcount
          simpa using hcount
        refine le_trans (ih (rank + 1) (by omega) h2) ?_
        apply div_le_div_of_nonneg_left (by norm_num) (by positivity)
        push_cast
        linarith

theorem dedupBySig_sublist : ∀ (l : List (RankedDoc μ)) (seen : List (List Char)),
    (dedupBySig l seen).Sublist l := by
  intro l
  induction l with
  | nil => intro seen; simp [dedupBySig]
  | cons d ds ih =>
      intro seen
      unfold dedupBySig
      split
      · exact (ih _).cons d
      · exact (ih _).cons₂ d

theorem split_at_webScore (l : List (RankedDoc μ))
    (hsort : l.Pairwise (fun a b => b.score ≤ a.score))
    (hP : ∀ e ∈ l, e.score = webScore ∨ e.score < webScore) :
    ∃ w loc, l = w ++ loc ∧ (∀ e ∈ w, e.score = webScore) ∧
      ∀ e ∈ loc, e.score < webScore := by
  refine ⟨l.takeWhile (fun e => decide (webScore ≤ e.score)),
    l.dropWhile (fun e => decide (webScore ≤ e.score)),
    (List.takeWhile_append_dropWhile _ _).symm, ?_, ?_⟩
  · intro e he
    have h1 : webScore ≤ e.score := by
      have := List.mem_takeWhile_imp he
      simpa using this
    have h2 := hP e ((List.takeWhile_sublist _).subset he)
    rcases h2 with h2 | h2
    · exact h2
    · linarith
  · intro e he
    match hdw : l.dropWhile (fun e => decide (webScore ≤ e.score)) with
    | [] => rw [hdw] at he; simp at he
    | h0 :: rest =>
        rw [hdw] at he
        have hh0 : ¬ webScore ≤ h0.score := by
          have := List.head?_dropWhile_not (fun e => decide (webScore ≤ e.score)) l
          rw [hdw] at this
          simpa using this
        have hsort2 : (h0 :: rest).Pairwise (fun a b => b.score ≤ a.score) := by
          rw [← hdw]
          exact List.Pairwise.sublist (List.dropWhile_sublist _) hsort
        rcases List.mem_cons.mp he with rfl | he2
        · linarith
        · have := (List.pairwise_cons.mp hsort2).1 e he2
          linarith

/-- C10 (corrected): for every invocation of `HybridSearchEngine.search`
with non-negative weights summing to at most 1 in which, additionally, each
200-character dedup key occurs at most once per local result list, every
web-fallback document (fixed synthetic score 0.8) is placed before every
locally fused document in the returned list, since each fused local score
is then at most `(vector_weight + bm25_weight)/61 < 0.8`.  (As originally
stated — without the per-list key-multiplicity condition — the claim is
false: a key repeated often enough in one list accumulates a fused score
above 0.8, see the counterexample.) -/
theorem claim_C10_amended (vr br : List (RankedDoc μ)) (web : List (WebRaw μ))
    (tk : ℕ) (vw bw : ℚ) (fb : Bool)
    (hvw : 0 ≤ vw) (hbw : 0 ≤ bw) (hsum : vw + bw ≤ 1)
    (hvr : (vr.map (fun d => doc_key d.content)).Nodup)
    (hbr : (br.map (fun d => doc_key d.content)).Nodup) :
    ∃ w loc, hybridSearch vr br web tk vw bw fb = w ++ loc ∧
      (∀ e ∈ w, e.score = webScore) ∧ ∀ e ∈ loc, e.score < webScore := by
  have hlocal : ∀ e ∈ reciprocal_rank_fusion vr br 60 vw bw, e.score < webScore := by
    intro e he
    have hs := rrf_score_eq vr br 60 vw bw he
    have hb1 : rankSum 60 (doc_key e.content) vr ≤ 1 / 61 := by
      have := rankSumAux_le 60 (doc_key e.content) 1 (le_refl 1) vr
        (countP_le_one_of_nodup_map _ vr hvr (doc_key e.content))
      norm_num at this ⊢
      exact this
    have hb2 : rankSum 60 (doc_key e.content) br ≤ 1 / 61 := by
      have := rankSumAux_le 60 (doc_key e.content) 1 (le_refl 1) br
        (countP_le_one_of_nodup_map _ br hbr (doc_key e.content))
      norm_num at this ⊢
      exact this
    have hn1 : 0 ≤ rankSum 60 (doc_key e.content) vr :=
      rankSumAux_nonneg 60 _ 1 (le_refl 1) vr
    have hn2 : 0 ≤ rankSum 60 (doc_key e.content) br :=
      rankSumAux_nonneg 60 _ 1 (le_refl 1) br
    have h1 : vw * rankSum 60 (doc_key e.content) vr ≤ vw * (1 / 61) :=
      mul_le_mul_of_nonneg_left hb1 hvw
    have h2 : bw * rankSum 60 (doc_key e.content) br ≤ bw * (1 / 61) :=
      mul_le_mul_of_nonneg_left hb2 hbw
    rw [hs]
    have : vw * (1 / 61) + bw * (1 / 61) ≤ 1 / 61 := by linarith
    unfold webScore
    linarith
  unfold hybridSearch
  set fused := reciprocal_rank_fusion vr br 60 vw bw with hfused
  set fused2 := if fb ∧ fused.length < 3 then
      fused ++ web.map (fun wr =>
        (⟨webScore, cs "WEB SEARCH RESULT: " ++ wr.title ++ [Char.ofNat 10] ++ wr.body,
          wr.meta⟩ : RankedDoc μ))
    else fused with hfused2
  have hP2 : ∀ e ∈ fused2, e.score = webScore ∨ e.score < webScore := by
    intro e he
    rw [hfused2] at he
    split at he
    · rcases List.mem_append.mp he with he | he
      · exact Or.inr (hlocal e he)
      · obtain ⟨wr, _, rfl⟩ := List.mem_map.mp he
        exact Or.inl rfl
    · exact Or.inr (hlocal e he)
  have hsorted := sortDescBy_sorted (fun d : RankedDoc μ => d.score) fused2
  have hPs : ∀ e ∈ sortDescBy (fun d : RankedDoc μ => d.score) fused2,
      e.score = webScore ∨ e.score < webScore := by
    intro e he
    exact hP2 e ((sortDescBy_perm _ _).subset he)
  have hdsub := dedupBySig_sublist (sortDescBy (fun d : RankedDoc μ => d.score) fused2) []
  have htsub := List.take_sublist tk
    (dedupBySig (sortDescBy (fun d : RankedDoc μ => d.score) fused2) [])
  refine split_at_webScore _
    (List.Pairwise.sublist htsub (List.Pairwise.sublist hdsub hsorted)) ?_
  intro e he
  exact hPs e (hdsub.subset (htsub.subset he))

theorem fusedDocs_sorted (w : ℚ) (k : ℕ) (hw : 0 ≤ w) (docs : List (RankedDoc μ)) :
    (fusedDocs w k 1 docs).Pairwise (fun a b => b.score ≤ a.score) := by
  unfold fusedDocs
  rw [List.pairwise_map]
  exact enumRecs_sorted w k hw 1 (le_refl 1) docs

/-- C2 (corrected): in `reciprocal_rank_fusion`, two entries are one logical
document exactly when their stripped 200-character content prefixes are
identical (the key is case-sensitive, not case-normalized as claimed): the
per-list contributions `weight/(k+rank)` of all entries with one key are
summed into one cumulative score, and each key appears exactly once in the
fused output, which represents every input entry. -/
theorem claim_C2_amended (vr br : List (RankedDoc μ)) (k : ℕ) (vw bw : ℚ) :
    ((reciprocal_rank_fusion vr br k vw bw).map (fun e => doc_key e.content)).Nodup ∧
    (∀ e ∈ reciprocal_rank_fusion vr br k vw bw,
      e.score = vw * rankSum k (doc_key e.content) vr +
        bw * rankSum k (doc_key e.content) br) ∧
    (∀ d : RankedDoc μ, d ∈ vr ∨ d ∈ br →
      ∃ e ∈ reciprocal_rank_fusion vr br k vw bw,
        doc_key e.content = doc_key d.content) :=
  ⟨rrf_keys_nodup vr br k vw bw,
   fun _ he => rrf_score_eq vr br k vw bw he,
   fun _ hd => rrf_mem_of_input vr br k vw bw hd⟩

theorem key_Apple_apple : (doc_key (cs "Apple") = doc_key (cs "apple")) = False := by
  simp only [eq_iff_iff, iff_false]
  decide

/-- C2, counterexample to the claim as stated: two entries whose first 200
characters agree after case normalization but differ in case are NOT merged
— the fused output contains both. -/
theorem claim_C2_counterexample :
    lowers ((cs "Apple").take 200) = lowers ((cs "apple").take 200) ∧
    (reciprocal_rank_fusion [⟨1, cs "Apple", (0 : ℕ)⟩] [⟨1, cs "apple", 0⟩]
        60 (1/2) (1/2)).map (fun d => d.content) = [cs "Apple", cs "apple"] := by
  refine ⟨rfl, ?_⟩
  rw [reciprocal_rank_fusion_eq]
  norm_num [scorePassAux, addContribution, sortDescBy, insDescBy, toDoc,
    key_Apple_apple]

/-- C2 witness: the amended theorem at a concrete input. -/
theorem claim_C2_witness :
    ∃ e ∈ reciprocal_rank_fusion [⟨1, cs "doc x", (0 : ℕ)⟩] [⟨1, cs "doc y", 0⟩]
        60 (1/2) (1/2), doc_key e.content = doc_key (cs "doc x") := by
  have h := (claim_C2_amended [⟨1, cs "doc x", (0 : ℕ)⟩] [⟨1, cs "doc y", 0⟩]
    60 (1/2) (1/2)).2.2 ⟨1, cs "doc x", 0⟩ (Or.inl (by simp))
  simpa using h

/-- C3 (corrected): for every ranked list `A` with pairwise distinct
200-character prefix keys, fusing `A` against itself with equal
non-negative weights returns the same documents in the same relative order
as `A`.  (As originally stated — for arbitrary non-zero weights — the claim
is false: equal negative weights reverse the order, see the
counterexample.) -/
theorem claim_C3_amended (A : List (RankedDoc μ)) (w : ℚ) (hw : 0 ≤ w)
    (hnd : (A.map (fun d => doc_key d.content)).Nodup) :
    (reciprocal_rank_fusion A A 60 w w).map (fun d => d.content) =
      A.map (fun d => d.content) := by
  rw [rrf_self_eq A w hw hnd, fusedDocs_contents]

theorem key_aaa_bbb : (doc_key (cs "aaa") = doc_key (cs "bbb")) = False := by
  simp only [eq_iff_iff, iff_false]
  decide

theorem key_bbb_aaa : (doc_key (cs "bbb") = doc_key (cs "aaa")) = False := by
  simp only [eq_iff_iff, iff_false]
  decide

/-- C3, counterexample to the claim as stated: with the equal non-zero
weight `-1`, fusing a two-document list against itself reverses the order. -/
theorem claim_C3_counterexample :
    ((-1 : ℚ) ≠ 0) ∧
    (([⟨1, cs "aaa", (0 : ℕ)⟩, ⟨1, cs "bbb", 0⟩] : List (RankedDoc ℕ)).map
      (fun d => doc_key d.content)).Nodup ∧
    (reciprocal_rank_fusion [⟨1, cs "aaa", (0 : ℕ)⟩, ⟨1, cs "bbb", 0⟩]
        [⟨1, cs "aaa", 0⟩, ⟨1, cs "bbb", 0⟩] 60 (-1) (-1)).map
      (fun d => d.content) = [cs "bbb", cs "aaa"] := by
  refine ⟨by norm_num, by decide, ?_⟩
  rw [reciprocal_rank_fusion_eq]
  norm_num [scorePassAux, addContribution, sortDescBy, insDescBy, toDoc,
    key_aaa_bbb, key_bbb_aaa]

/-- C3 witness: the amended theorem at a concrete input. -/
theorem claim_C3_witness :
    (reciprocal_rank_fusion [⟨1, cs "aaa", (0 : ℕ)⟩, ⟨1, cs "bbb", 0⟩]
        [⟨1, cs "aaa", 0⟩, ⟨1, cs "bbb", 0⟩] 60 (1/2) (1/2)).map
      (fun d => d.content) = [cs "aaa", cs "bbb"] := by
  have h := claim_C3_amended [⟨1, cs "aaa", (0 : ℕ)⟩, ⟨1, cs "bbb", 0⟩]
    (1/2) (by norm_num) (by decide)
  simpa using h

/-- C4 (corrected): for input lists with no shared dedup keys whose keys
are, additionally, pairwise distinct within each list, the fused output
equals the concatenation of the two lists — each document rescored to its
fused score — sorted descending (stably); and, for non-negative weights,
two documents from the same input list never have their relative order
reversed.  (As originally stated — without within-list distinctness — the
claim is false: duplicated keys inside one list are merged, so the output
is not the sorted concatenation, see the counterexample.) -/
theorem claim_C4_amended (A B : List (RankedDoc μ)) (vw bw : ℚ)
    (hvw : 0 ≤ vw) (hbw : 0 ≤ bw)
    (hA : (A.map (fun d => doc_key d.content)).Nodup)
    (hB : (B.map (fun d => doc_key d.content)).Nodup)
    (hdisj : ∀ ka ∈ A.map (fun d => doc_key d.content),
      ka ∉ B.map (fun d => doc_key d.content)) :
    reciprocal_rank_fusion A B 60 vw bw =
      sortDescBy (fun d => d.score) (fusedDocs vw 60 1 A ++ fusedDocs bw 60 1 B) ∧
    ((reciprocal_rank_fusion A B 60 vw bw).filter
        (fun d => decide (d.content ∈ A.map (fun x => x.content)))).map
      (fun d => d.content) = A.map (fun d => d.content) ∧
    ((reciprocal_rank_fusion A B 60 vw bw).filter
        (fun d => decide (d.content ∈ B.map (fun x => x.content)))).map
      (fun d => d.content) = B.map (fun d => d.content) := by
  have heq := rrf_disjoint_eq A B vw bw hA hB hdisj
  refine ⟨heq, ?_, ?_⟩
  · rw [heq, filter_sortDescBy]
    have hfA : (fusedDocs vw 60 1 A).filter
        (fun d => decide (d.content ∈ A.map (fun x => x.content))) =
        fusedDocs vw 60 1 A := by
      rw [List.filter_eq_self]
      intro e he
      simp only [decide_eq_true_eq]
      rw [← fusedDocs_contents vw 60 1 A]
      exact List.mem_map.mpr ⟨e, he, rfl⟩
    have hfB : (fusedDocs bw 60 1 B).filter
        (fun d => decide (d.content ∈ A.map (fun x => x.content))) = [] := by
      rw [List.filter_eq_nil_iff]
      intro e he
      simp only [decide_eq_true_eq]
      intro hmem
      have h1 : doc_key e.content ∈ A.map (fun d => doc_key d.content) := by
        obtain ⟨d2, hd2, hd2e⟩ := List.mem_map.mp hmem
        exact List.mem_map.mpr ⟨d2, hd2, by rw [hd2e]⟩
      have h2 : doc_key e.content ∈ B.map (fun d => doc_key d.content) := by
        have : e.content ∈ (fusedDocs bw 60 1 B).map (fun d => d.content) :=
          List.mem_map.mpr ⟨e, he, rfl⟩
        rw [fusedDocs_contents] at this
        obtain ⟨d2, hd2, hd2e⟩ := List.mem_map.mp this
        exact List.mem_map.mpr ⟨d2, hd2, by rw [hd2e]⟩
      exact hdisj _ h1 h2
    rw [List.filter_append, hfA, hfB, List.append_nil,
      sortDescBy_of_sorted _ _ (fusedDocs_sorted vw 60 hvw A), fusedDocs_contents]
  · rw [heq, filter_sortDescBy]
    have hfB : (fusedDocs bw 60 1 B).filter
        (fun d => decide (d.content ∈ B.map (fun x => x.content))) =
        fusedDocs bw 60 1 B := by
      rw [List.filter_eq_self]
      intro e he
      simp only [decide_eq_true_eq]
      rw [← fusedDocs_contents bw 60 1 B]
      exact List.mem_map.mpr ⟨e, he, rfl⟩
    have hfA : (fusedDocs vw 60 1 A).filter
        (fun d => decide (d.content ∈ B.map (fun x => x.content))) = [] := by
      rw [List.filter_eq_nil_iff]
      intro e he
      simp only [decide_eq_true_eq]
      intro hmem
      have h2 : doc_key e.content ∈ B.map (fun d => doc_key d.content) := by
        obtain ⟨d2, hd2, hd2e⟩ := List.mem_map.mp hmem
        exact List.mem_map.mpr ⟨d2, hd2, by rw [hd2e]⟩
      have h1 : doc_key e.content ∈ A.map (fun d => doc_key d.content) := by
        have : e.content ∈ (fusedDocs vw 60 1 A).map (fun d => d.content) :=
          List.mem_map.mpr ⟨e, he, rfl⟩
        rw [fusedDocs_contents] at this
        obtain ⟨d2, hd2, hd2e⟩ := List.mem_map.mp this
        exact List.mem_map.mpr ⟨d2, hd2, by rw [hd2e]⟩
      exact hdisj _ h1 h2
    rw [List.filter_append, hfA, hfB, List.nil_append,
      sortDescBy_of_sorted _ _ (fusedDocs_sorted bw 60 hbw B), fusedDocs_contents]

theorem key_xxx_yyy : (doc_key (cs "xxx") = doc_key (cs "yyy")) = False := by
  simp only [eq_iff_iff, iff_false]
  decide

theorem key_yyy_xxx : (doc_key (cs "yyy") = doc_key (cs "xxx")) = False := by
  simp only [eq_iff_iff, iff_false]
  decide

/-- C4, counterexample to the claim as stated: with a dedup key duplicated
inside the first list (key sets across the lists still disjoint), the fused
output has 2 entries while the concatenation of the two input lists has 3 —
the output cannot equal the score-sorted concatenation. -/
theorem claim_C4_counterexample :
    (([⟨1, cs "xxx", (0 : ℕ)⟩, ⟨1, cs "xxx", 0⟩] : List (RankedDoc ℕ)).map
        (fun d => doc_key d.content)).all
      (fun ka => !(([⟨1, cs "yyy", (0 : ℕ)⟩] : List (RankedDoc ℕ)).map
        (fun d => doc_key d.content)).contains ka) = true ∧
    (reciprocal_rank_fusion [⟨1, cs "xxx", (0 : ℕ)⟩, ⟨1, cs "xxx", 0⟩]
      [⟨1, cs "yyy", 0⟩] 60 (1/2) (1/2)).length = 2 ∧
    (([⟨1, cs "xxx", (0 : ℕ)⟩, ⟨1, cs "xxx", 0⟩] : List (RankedDoc ℕ)) ++
      ([⟨1, cs "yyy", 0⟩] : List (RankedDoc ℕ))).length = 3 := by
  refine ⟨?_, ?_, ?_⟩
  · decide
  · rw [reciprocal_rank_fusion_eq, List.length_map,
      (sortDescBy_perm _ _).length_eq]
    norm_num [scorePassAux, addContribution, key_yyy_xxx, key_xxx_yyy]
  · decide

/-- C4 witness: the amended theorem at a concrete input. -/
theorem claim_C4_witness :
    ((reciprocal_rank_fusion [⟨1, cs "xxx", (0 : ℕ)⟩] [⟨1, cs "yyy", 0⟩]
        60 (1/2) (1/2)).filter
      (fun d => decide (d.content ∈ ([⟨1, cs "xxx", (0 : ℕ)⟩] :
        List (RankedDoc ℕ)).map (fun x => x.content)))).map (fun d => d.content) =
      [cs "xxx"] := by
  have h := (claim_C4_amended [⟨1, cs "xxx", (0 : ℕ)⟩] [⟨1, cs "yyy", 0⟩]
    (1/2) (1/2) (by norm_num) (by norm_num) (by decide) (by decide)
    (by decide)).2.1
  simpa using h

theorem sig_web_d :
    (lowers (List.take 200
        (cs "WEB SEARCH RESULT: " ++ (cs "W" ++ Char.ofNat 10 :: cs "B"))) =
      lowers (List.take 200 (cs "d"))) = False := by
  simp only [eq_iff_iff, iff_false]
  decide

set_option maxHeartbeats 2000000 in
/-- C10, counterexample to the claim as stated: one local list repeating a
single dedup key 75 times gives that merged local document fused score
`Σ_{r=1..75} 1/(60+r) > 0.8`, so it is placed before the web-fallback
document even though the weights are non-negative and sum to 1. -/
theorem claim_C10_counterexample :
    (hybridSearch (List.replicate 75 (⟨1, cs "d", (0 : ℕ)⟩ : RankedDoc ℕ)) []
        [⟨cs "W", cs "B", 0⟩] 5 1 0 true).map (fun d => d.content) =
      [cs "d", cs "WEB SEARCH RESULT: W" ++ [Char.ofNat 10] ++ cs "B"] ∧
    (hybridSearch (List.replicate 75 (⟨1, cs "d", (0 : ℕ)⟩ : RankedDoc ℕ)) []
        [⟨cs "W", cs "B", 0⟩] 5 1 0 true).map
      (fun d => decide (webScore < d.score)) = [true, false] := by
  constructor
  · norm_num [hybridSearch, reciprocal_rank_fusion, scorePassAux, addContribution,
      sortDescBy, insDescBy, dedupBySig, webScore, List.replicate, sig_web_d]
    decide
  · norm_num [hybridSearch, reciprocal_rank_fusion, scorePassAux, addContribution,
      sortDescBy, insDescBy, dedupBySig, webScore, List.replicate, sig_web_d]

/-- C10 witness: the amended theorem at a concrete input. -/
theorem claim_C10_witness :
    ∃ w loc, hybridSearch [(⟨1, cs "local doc", (0 : ℕ)⟩ : RankedDoc ℕ)] []
        [⟨cs "W", cs "B", 0⟩] 5 (1/2) (1/2) true = w ++ loc ∧
      (∀ e ∈ w, e.score = webScore) ∧ ∀ e ∈ loc, e.score < webScore :=
  claim_C10_amended [(⟨1, cs "local doc", (0 : ℕ)⟩ : RankedDoc ℕ)] []
    [⟨cs "W", cs "B", 0⟩] 5 (1/2) (1/2) true (by norm_num) (by norm_num)
    (by norm_num) (by decide) (by decide)

set_option maxHeartbeats 1000000 in
/-- Case analysis over the if-chain of `classify_query`: a FUNDAMENTALS
route always comes with `needs_web = true`, and the route is one of the
ten route strings. -/
theorem classify_route_cases (q : List Char) (p : List (List Char)) :
    ((classify_query q p).route = QueryRoute.FUNDAMENTALS →
      (classify_query q p).needs_web = true) ∧
    (classify_query q p).route ∈ [QueryRoute.CONVERSATIONAL,
      QueryRoute.COMPARISON, QueryRoute.STOCK_PRICE,
      QueryRoute.RECOMMENDATIONS, QueryRoute.FUNDAMENTALS,
      QueryRoute.TECHNICALS, QueryRoute.NEWS_SEARCH, QueryRoute.PORTFOLIO,
      QueryRoute.DISCOVERY, QueryRoute.GENERAL_MARKET] := by
  cases hC : classify_query q p with
  | mk r1 r2 r3 r4 r5 r6 r7 r8 =>
      show (r1 = QueryRoute.FUNDAMENTALS → r4 = true) ∧ r1 ∈ _
      unfold classify_query at hC
      lift_lets at hC
      extract_lets ql ms ic su nw m0 m1 m2 m3 m4 m5 nw2 ps pm dm at hC
      by_cases c1 : ql ∈ greetingsList ∨ ql.length < 4
      · rw [if_pos c1] at hC
        injection hC with e1 e2 e3 e4 e5 e6 e7 e8
        refine ⟨fun h2 => ?_, ?_⟩
        · rw [← e1] at h2
          exact absurd h2 (by decide)
        · rw [← e1]
          decide
      · rw [if_neg c1] at hC
        by_cases c2 : m0 = some QueryRoute.COMPARISON ∧ 2 ≤ ms.length
        · rw [if_pos c2] at hC
          injection hC with e1 e2 e3 e4 e5 e6 e7 e8
          refine ⟨fun h2 => ?_, ?_⟩
          · rw [← e1] at h2
            exact absurd h2 (by decide)
          · rw [← e1]
            decide
        · rw [if_neg c2] at hC
          by_cases c3 : m1 = some QueryRoute.STOCK_PRICE ∧ ms ≠ []
          · rw [if_pos c3] at hC
            injection hC with e1 e2 e3 e4 e5 e6 e7 e8
            refine ⟨fun h2 => ?_, ?_⟩
            · rw [← e1] at h2
              exact absurd h2 (by decide)
            · rw [← e1]
              decide
          · rw [if_neg c3] at hC
            by_cases c4 : m1 = some QueryRoute.RECOMMENDATIONS ∧ ms ≠ []
            · rw [if_pos c4] at hC
              injection hC with e1 e2 e3 e4 e5 e6 e7 e8
              refine ⟨fun h2 => ?_, ?_⟩
              · rw [← e1] at h2
                exact absurd h2 (by decide)
              · rw [← e1]
                decide
            · rw [if_neg c4] at hC
              by_cases c5 : m1 = some QueryRoute.FUNDAMENTALS ∧ ms ≠ []
              · rw [if_pos c5] at hC
                injection hC with e1 e2 e3 e4 e5 e6 e7 e8
                refine ⟨fun h2 => ?_, ?_⟩
                · exact e4.symm
                · rw [← e1]
                  decide
              · rw [if_neg c5] at hC
                by_cases c6 : m1 = some QueryRoute.TECHNICALS ∧ ms ≠ []
                · rw [if_pos c6] at hC
                  injection hC with e1 e2 e3 e4 e5 e6 e7 e8
                  refine ⟨fun h2 => ?_, ?_⟩
                  · rw [← e1] at h2
                    exact absurd h2 (by decide)
                  · rw [← e1]
                    decide
                · rw [if_neg c6] at hC
                  by_cases c7 : m1 = some QueryRoute.NEWS_SEARCH
                  · rw [if_pos c7] at hC
                    injection hC with e1 e2 e3 e4 e5 e6 e7 e8
                    refine ⟨fun h2 => ?_, ?_⟩
                    · rw [← e1] at h2
                      exact absurd h2 (by decide)
                    · rw [← e1]
                      decide
                  · rw [if_neg c7] at hC
                    by_cases c8 : m5 = none ∧ dm = [] ∧ pm ≠ []
                    · rw [if_pos c8] at hC
                      by_cases c8a : ((csl ["my portfolio", "my stocks", "my holding", "portfolio"]).any fun w => substrB ql w) = true
                      · rw [if_pos c8a] at hC
                        injection hC with e1 e2 e3 e4 e5 e6 e7 e8
                        refine ⟨fun h2 => ?_, ?_⟩
                        · rw [← e1] at h2
                          exact absurd h2 (by decide)
                        · rw [← e1]
                          decide
                      · rw [if_neg c8a] at hC
                        injection hC with e1 e2 e3 e4 e5 e6 e7 e8
                        refine ⟨fun h2 => ?_, ?_⟩
                        · rw [← e1] at h2
                          exact absurd h2 (by decide)
                        · rw [← e1]
                          decide
                    · rw [if_neg c8] at hC
                      by_cases c9 : m5 = none ∧ dm ≠ []
                      · rw [if_pos c9] at hC
                        injection hC with e1 e2 e3 e4 e5 e6 e7 e8
                        refine ⟨fun h2 => ?_, ?_⟩
                        · rw [← e1] at h2
                          exact absurd h2 (by decide)
                        · rw [← e1]
                          decide
                      · rw [if_neg c9] at hC
                        by_cases c10 : (market_keywords.any fun w => substrB ql w) = true
                        · rw [if_pos c10] at hC
                          injection hC with e1 e2 e3 e4 e5 e6 e7 e8
                          refine ⟨fun h2 => ?_, ?_⟩
                          · rw [← e1] at h2
                            exact absurd h2 (by decide)
                          · rw [← e1]
                            decide
                        · rw [if_neg c10] at hC
                          by_cases c11 : ic = true ∧ ms = []
                          · rw [if_pos c11] at hC
                            injection hC with e1 e2 e3 e4 e5 e6 e7 e8
                            refine ⟨fun h2 => ?_, ?_⟩
                            · rw [← e1] at h2
                              exact absurd h2 (by decide)
                            · rw [← e1]
                              decide
                          · rw [if_neg c11] at hC
                            by_cases c12 : ms ≠ []
                            · rw [if_pos c12] at hC
                              injection hC with e1 e2 e3 e4 e5 e6 e7 e8
                              refine ⟨fun h2 => ?_, ?_⟩
                              · rw [← e1] at h2
                                exact absurd h2 (by decide)
                              · rw [← e1]
                                decide
                            · rw [if_neg c12] at hC
                              by_cases c13 : nw2 ∨ 3 < countWords ql
                              · rw [if_pos c13] at hC
                                injection hC with e1 e2 e3 e4 e5 e6 e7 e8
                                refine ⟨fun h2 => ?_, ?_⟩
                                · rw [← e1] at h2
                                  exact absurd h2 (by decide)
                                · rw [← e1]
                                  decide
                              · rw [if_neg c13] at hC
                                injection hC with e1 e2 e3 e4 e5 e6 e7 e8
                                refine ⟨fun h2 => ?_, ?_⟩
                                · rw [← e1] at h2
                                  exact absurd h2 (by decide)
                                · rw [← e1]
                                  decide

/-! ## Ground classification facts used by the C5 and C9 theorems -/

theorem routeFC : (QueryRoute.FUNDAMENTALS = QueryRoute.COMPARISON) = False := by
  simp only [eq_iff_iff, iff_false]
  decide

theorem routeFS : (QueryRoute.FUNDAMENTALS = QueryRoute.STOCK_PRICE) = False := by
  simp only [eq_iff_iff, iff_false]
  decide

theorem routeFR : (QueryRoute.FUNDAMENTALS = QueryRoute.RECOMMENDATIONS) = False := by
  simp only [eq_iff_iff, iff_false]
  decide

theorem resolve_fund_tcs :
    resolve_stock_from_query (cs "fundamentals of TCS") = [cs "TCS"] := by
  rw [← resolveF_eq]
  decide

theorem classify_fund_eq :
    classify_query (cs "fundamentals of TCS") [] =
      ⟨QueryRoute.FUNDAMENTALS, [cs "TCS"], false, true,
        cs "fundamental_analysis", false, [], []⟩ := by
  simp only [classify_query, resolve_fund_tcs]
  decide

theorem resolve_followup_q :
    resolve_stock_from_query (cs "what about its fundamentals") = [] := by
  rw [← resolveF_eq]
  decide

theorem resolve_followup_resolved :
    resolve_stock_from_query
      (cs "what about its fundamentals (regarding TCS)") = [cs "TCS"] := by
  rw [← resolveF_eq]
  decide

theorem matchIntent_followup :
    matchIntent (trims (lowers (cs "what about its fundamentals (regarding TCS)"))) =
      some QueryRoute.FUNDAMENTALS := by
  decide

theorem followup_not_greeting :
    (trims (lowers (cs "what about its fundamentals (regarding TCS)")) ∈ greetingsList ∨
      (trims (lowers (cs "what about its fundamentals (regarding TCS)"))).length < 4) =
      False := by
  simp only [eq_iff_iff, iff_false]
  decide

theorem classify_followup_eq (p : List (List Char)) :
    classify_query (cs "what about its fundamentals (regarding TCS)") p =
      ⟨QueryRoute.FUNDAMENTALS, [cs "TCS"], false, true,
        cs "fundamental_analysis", false, [], []⟩ := by
  simp only [classify_query, resolve_followup_resolved, matchIntent_followup,
    followup_not_greeting, routeFC, routeFS, routeFR, Option.some.injEq,
    ite_false, ite_true, false_and, and_false, true_and, and_true,
    eq_self_iff_true, ne_eq, not_false_iff, reduceCtorEq, not_false_eq_true]
  decide

/-- C5: every query that `classify_query` routes to FUNDAMENTALS comes back
with `needs_web = true` (the FUNDAMENTALS branch sets it unconditionally);
in particular `classify_query "fundamentals of TCS" []` routes to
FUNDAMENTALS with `needs_web = true`. -/
theorem claim_C5_theorem :
    (∀ (q : List Char) (p : List (List Char)),
      (classify_query q p).route = QueryRoute.FUNDAMENTALS →
      (classify_query q p).needs_web = true) ∧
    (classify_query (cs "fundamentals of TCS") []).route =
      QueryRoute.FUNDAMENTALS ∧
    (classify_query (cs "fundamentals of TCS") []).needs_web = true := by
  refine ⟨fun q p => (classify_route_cases q p).1, ?_, ?_⟩
  · rw [classify_fund_eq]
  · rw [classify_fund_eq]

/-- C5 witness: the universally quantified part of the theorem applied at
the concrete input `("fundamentals of TCS", [])`. -/
theorem claim_C5_witness :
    (classify_query (cs "fundamentals of TCS") []).needs_web = true :=
  claim_C5_theorem.1 (cs "fundamentals of TCS") [] (by rw [classify_fund_eq])

/-- C7: when every completion attempt raises, `GeminiAnalyst.analyze` makes
exactly 3 attempts, sleeps 1, 2 and 4 units after the failed attempts,
obtains no analysis, and returns one of the two structured failure
messages instead of propagating the exception. -/
theorem claim_C7_theorem (call : ℕ → Except (List Char) (List Char))
    (hfail : ∀ n, ∃ e, call n = Except.error e) :
    (analyzeLLMStage call).1.attempts = 3 ∧
    (analyzeLLMStage call).1.sleeps = [1, 2, 4] ∧
    (analyzeLLMStage call).1.analysis = none ∧
    ((analyzeLLMStage call).2 =
        cs "❌ **Analysis failed: Network firewall/proxy is blocking the Gemini API.**\n\n**Fix:** Switch to mobile hotspot or use a VPN." ∨
      ∃ e, call 2 = Except.error e ∧
        (analyzeLLMStage call).2 = cs "❌ Analysis failed: " ++ e) := by
  obtain ⟨e0, h0⟩ := hfail 0
  obtain ⟨e1, h1⟩ := hfail 1
  obtain ⟨e2, h2⟩ := hfail 2
  have htr : geminiRetry call = ⟨3, [1, 2, 4], none, some e2⟩ := by
    simp only [geminiRetry, retryAux, h0, h1, h2]
    norm_num
  refine ⟨?_, ?_, ?_, ?_⟩
  · simp [analyzeLLMStage, htr]
  · simp [analyzeLLMStage, htr]
  · simp [analyzeLLMStage, htr]
  · by_cases hfw : firewallMarkers.any (fun m => substrB (lowers e2) m) = true
    · left
      simp [analyzeLLMStage, htr, hfw]
    · right
      refine ⟨e2, h2, ?_⟩
      simp [analyzeLLMStage, htr, hfw]

/-- C7 witness: the theorem at the concrete always-failing call. -/
theorem claim_C7_witness :
    (analyzeLLMStage (fun _ => Except.error (cs "boom"))).1.attempts = 3 ∧
    (analyzeLLMStage (fun _ => Except.error (cs "boom"))).1.sleeps = [1, 2, 4] ∧
    (analyzeLLMStage (fun _ => Except.error (cs "boom"))).1.analysis = none ∧
    ((analyzeLLMStage (fun _ => Except.error (cs "boom"))).2 =
        cs "❌ **Analysis failed: Network firewall/proxy is blocking the Gemini API.**\n\n**Fix:** Switch to mobile hotspot or use a VPN." ∨
      ∃ e, (fun _ => Except.error (cs "boom") :
            ℕ → Except (List Char) (List Char)) 2 = Except.error e ∧
        (analyzeLLMStage (fun _ => Except.error (cs "boom"))).2 =
          cs "❌ Analysis failed: " ++ e) :=
  claim_C7_theorem (fun _ => Except.error (cs "boom"))
    (fun _ => ⟨cs "boom", rfl⟩)

/-- C8: `classify_query` is total and deterministic — every input pair
yields exactly one result whose route is one of the ten route strings, and
equal inputs give equal results. -/
theorem claim_C8_theorem :
    (∀ (q : List Char) (p : List (List Char)),
      (classify_query q p).route ∈ [QueryRoute.CONVERSATIONAL,
        QueryRoute.COMPARISON, QueryRoute.STOCK_PRICE,
        QueryRoute.RECOMMENDATIONS, QueryRoute.FUNDAMENTALS,
        QueryRoute.TECHNICALS, QueryRoute.NEWS_SEARCH, QueryRoute.PORTFOLIO,
        QueryRoute.DISCOVERY, QueryRoute.GENERAL_MARKET]) ∧
    (∀ (q : List Char) (p : List (List Char)) (r1 r2 : ClassificationResult),
      classify_query q p = r1 → classify_query q p = r2 → r1 = r2) := by
  refine ⟨fun q p => (classify_route_cases q p).2, ?_⟩
  intro q p r1 r2 h1 h2
  rw [← h1, ← h2]

/-- C8 witness: both parts of the theorem at a concrete input. -/
theorem claim_C8_witness :
    (classify_query (cs "how is the market doing") []).route ∈
      [QueryRoute.CONVERSATIONAL, QueryRoute.COMPARISON,
        QueryRoute.STOCK_PRICE, QueryRoute.RECOMMENDATIONS,
        QueryRoute.FUNDAMENTALS, QueryRoute.TECHNICALS,
        QueryRoute.NEWS_SEARCH, QueryRoute.PORTFOLIO, QueryRoute.DISCOVERY,
        QueryRoute.GENERAL_MARKET] ∧
    classify_query (cs "how is the market doing") [] =
      classify_query (cs "how is the market doing") [] :=
  ⟨claim_C8_theorem.1 (cs "how is the market doing") [],
   claim_C8_theorem.2 (cs "how is the market doing") []
     (classify_query (cs "how is the market doing") [])
     (classify_query (cs "how is the market doing") []) rfl rfl⟩

theorem is_follow_up_followup : is_follow_up (cs "what about its fundamentals") = true := by
  simp only [is_follow_up, resolve_followup_q]
  decide

theorem joincat_followup :
    cs "what about its fundamentals" ++ cs " (regarding " ++
      joinSep (cs ", ") [cs "TCS"] ++ cs ")" =
      cs "what about its fundamentals (regarding TCS)" := by
  decide

theorem no_suggestion_followup :
    ((csl ["past preference", "my preference", "what should i analyze",
      "analyze next"]).any
        (fun w => substrB (lowers (cs "what about its fundamentals")) w)) = false := by
  decide

/-- C9: with the most recent assistant turn carrying symbols `[TCS]`, the
query `"what about its fundamentals"` (which resolves no symbols of its
own and matches a follow-up pattern) routes to FUNDAMENTALS with symbols
`[TCS]` carried forward from history. -/
theorem claim_C9_theorem (history : List Turn) (portfolio : List (List Char))
    (hsym : get_last_symbols history = [cs "TCS"]) :
    (router_node (cs "what about its fundamentals") (cs "quick") history
        portfolio).route = QueryRoute.FUNDAMENTALS ∧
    (router_node (cs "what about its fundamentals") (cs "quick") history
        portfolio).symbols = [cs "TCS"] ∧
    (router_node (cs "what about its fundamentals") (cs "quick") history
        portfolio).is_follow_up = true ∧
    resolve_stock_from_query (cs "what about its fundamentals") = [] := by
  refine ⟨?_, ?_, ?_, resolve_followup_q⟩ <;>
    simp only [router_node, hsym, is_follow_up_followup, resolve_followup_q,
      joincat_followup, classify_followup_eq, no_suggestion_followup,
      eq_self_iff_true, ne_eq, reduceCtorEq, not_false_eq_true, true_and,
      and_true, ite_true, ite_false, if_true, if_false, Bool.false_eq_true,
      false_and, not_false_iff]

/-- C9 witness: the theorem at a concrete one-turn history. -/
theorem claim_C9_witness :
    (router_node (cs "what about its fundamentals") (cs "quick")
        [⟨cs "assistant", cs "TCS is trading at about 3000", [cs "TCS"]⟩]
        []).route = QueryRoute.FUNDAMENTALS ∧
    (router_node (cs "what about its fundamentals") (cs "quick")
        [⟨cs "assistant", cs "TCS is trading at about 3000", [cs "TCS"]⟩]
        []).symbols = [cs "TCS"] ∧
    (router_node (cs "what about its fundamentals") (cs "quick")
        [⟨cs "assistant", cs "TCS is trading at about 3000", [cs "TCS"]⟩]
        []).is_follow_up = true ∧
    resolve_stock_from_query (cs "what about its fundamentals") = [] :=
  claim_C9_theorem
    [⟨cs "assistant", cs "TCS is trading at about 3000", [cs "TCS"]⟩] []
    (by decide)

/-! ## The comparison gate: C1 and C6 -/

theorem greetings_no_comparison :
    greetingsList.all (fun g => !(groupMatches comparisonGroup g)) = true := by
  decide

theorem matchIntent_of_comparison (q : List Char)
    (hk : groupMatches comparisonGroup q = true) :
    matchIntent q = some QueryRoute.COMPARISON := by
  have h2 : (fun g => groupMatches g q) comparisonGroup = true := hk
  unfold matchIntent INTENT_PATTERNS
  rw [@List.find?_cons_of_pos _ (fun g => groupMatches g q) comparisonGroup _ h2]
  rfl

/-- C1 (corrected): for a query of at least 4 stripped characters matching
the comparison intent group and resolving at least two symbols,
`classify_query` routes to COMPARISON with exactly the resolver's symbol
list — which is ordered by descending alias length (then uppercase-token
scan order), not by first mention in the query, as the counterexample
shows. -/
theorem claim_C1_amended (query : List Char) (p : List (List Char))
    (hlen : 4 ≤ (trims (lowers query)).length)
    (hk : groupMatches comparisonGroup (trims (lowers query)) = true)
    (h2 : 2 ≤ (resolve_stock_from_query query).length) :
    (classify_query query p).route = QueryRoute.COMPARISON ∧
    (classify_query query p).symbols = resolve_stock_from_query query := by
  have hm : matchIntent (trims (lowers query)) = some QueryRoute.COMPARISON :=
    matchIntent_of_comparison _ hk
  cases hC : classify_query query p with
  | mk r1 r2 r3 r4 r5 r6 r7 r8 =>
      show r1 = QueryRoute.COMPARISON ∧ r2 = resolve_stock_from_query query
      unfold classify_query at hC
      lift_lets at hC
      extract_lets ql ms ic su nw m0 m1 m2 m3 m4 m5 nw2 ps pm dm at hC
      have hgate : ¬(ql ∈ greetingsList ∨ ql.length < 4) := by
        rintro (hg | hlt)
        · have hall := List.all_eq_true.mp greetings_no_comparison _ hg
          have hk2 : groupMatches comparisonGroup ql = true := hk
          rw [hk2] at hall
          simp at hall
        · have hlen2 : 4 ≤ ql.length := hlen
          omega
      have hcond : m0 = some QueryRoute.COMPARISON ∧ 2 ≤ ms.length := ⟨hm, h2⟩
      rw [if_neg hgate, if_pos hcond] at hC
      injection hC with e1 e2 e3 e4 e5 e6 e7 e8
      exact ⟨e1.symm, e2.symm⟩

theorem resolve_compare_two :
    resolve_stock_from_query (cs "compare tcs and reliance") =
      [cs "RELIANCE", cs "TCS"] := by
  rw [← resolveF_eq]
  decide

/-- C1, counterexample to the claim as stated: in
`"compare tcs and reliance"` the alias `tcs` is mentioned before
`reliance`, yet the symbols come back as `[RELIANCE, TCS]` (aliases are
matched longest-first), not in first-mention order `[TCS, RELIANCE]`. -/
theorem claim_C1_counterexample :
    cs "compare tcs and reliance" =
      cs "compare " ++ cs "tcs" ++ cs " and " ++ cs "reliance" ∧
    (classify_query (cs "compare tcs and reliance") []).route =
      QueryRoute.COMPARISON ∧
    (classify_query (cs "compare tcs and reliance") []).symbols =
      [cs "RELIANCE", cs "TCS"] ∧
    (classify_query (cs "compare tcs and reliance") []).symbols ≠
      [cs "TCS", cs "RELIANCE"] := by
  refine ⟨by decide, ?_, ?_, ?_⟩ <;>
    · simp only [classify_query, resolve_compare_two]
      decide

/-- C1 witness: the amended theorem at a concrete input. -/
theorem claim_C1_witness :
    (classify_query (cs "compare tcs and reliance") []).route =
      QueryRoute.COMPARISON ∧
    (classify_query (cs "compare tcs and reliance") []).symbols =
      resolve_stock_from_query (cs "compare tcs and reliance") :=
  claim_C1_amended (cs "compare tcs and reliance") [] (by decide) (by decide)
    (by rw [← resolveF_eq]; decide)

/-- C6: a query of at least 4 stripped characters matching the comparison
intent group but resolving exactly one symbol is downgraded to the
STOCK_PRICE route with that single symbol — not COMPARISON. -/
theorem claim_C6_theorem (query : List Char) (p : List (List Char))
    (s : List Char)
    (hlen : 4 ≤ (trims (lowers query)).length)
    (hk : groupMatches comparisonGroup (trims (lowers query)) = true)
    (h1 : resolve_stock_from_query query = [s]) :
    (classify_query query p).route = QueryRoute.STOCK_PRICE ∧
    (classify_query query p).symbols = [s] ∧
    (classify_query query p).route ≠ QueryRoute.COMPARISON := by
  have hm : matchIntent (trims (lowers query)) = some QueryRoute.COMPARISON :=
    matchIntent_of_comparison _ hk
  cases hC : classify_query query p with
  | mk r1 r2 r3 r4 r5 r6 r7 r8 =>
      show r1 = QueryRoute.STOCK_PRICE ∧ r2 = [s] ∧
        r1 ≠ QueryRoute.COMPARISON
      unfold classify_query at hC
      lift_lets at hC
      extract_lets ql ms ic su nw m0 m1 m2 m3 m4 m5 nw2 ps pm dm at hC
      have hgate : ¬(ql ∈ greetingsList ∨ ql.length < 4) := by
        rintro (hg | hlt)
        · have hall := List.all_eq_true.mp greetings_no_comparison _ hg
          have hk2 : groupMatches comparisonGroup ql = true := hk
          rw [hk2] at hall
          simp at hall
        · have hlen2 : 4 ≤ ql.length := hlen
          omega
      have hms : ms = [s] := h1
      have hm0 : m0 = some QueryRoute.COMPARISON := hm
      have hc2 : ¬(m0 = some QueryRoute.COMPARISON ∧ 2 ≤ ms.length) := by
        rintro ⟨-, hx⟩
        rw [hms] at hx
        simp at hx
      have hm1 : m1 = some QueryRoute.STOCK_PRICE := by
        have hv : m1 = if m0 = some QueryRoute.COMPARISON ∧ ms.length = 1 then
            some QueryRoute.STOCK_PRICE else m0 := rfl
        rw [hv, if_pos ⟨hm0, by rw [hms]; rfl⟩]
      have hc3 : m1 = some QueryRoute.STOCK_PRICE ∧ ms ≠ [] := by
        refine ⟨hm1, ?_⟩
        rw [hms]
        exact List.cons_ne_nil s []
      rw [if_neg hgate, if_neg hc2, if_pos hc3] at hC
      injection hC with e1 e2 e3 e4 e5 e6 e7 e8
      refine ⟨e1.symm, ?_, ?_⟩
      · rw [← e2, hms]
      · rw [← e1]
        decide

/-- C6 witness: the theorem at a concrete input with exactly one
resolvable alias and a comparison keyword. -/
theorem claim_C6_witness :
    (classify_query (cs "compare tcs performance") []).route =
      QueryRoute.STOCK_PRICE ∧
    (classify_query (cs "compare tcs performance") []).symbols = [cs "TCS"] ∧
    (classify_query (cs "compare tcs performance") []).route ≠
      QueryRoute.COMPARISON :=
  claim_C6_theorem (cs "compare tcs performance") [] (cs "TCS") (by decide)
    (by decide) (by rw [← resolveF_eq]; decide)

end MarketMind
